import Mathlib

/-!
Verification development for the entity-resolution core of the
marketing-data-platform repository (`src/normalizers/company_normalizer.py`,
`src/deduplication/entity_resolver.py`, `src/models/schemas.py`).

Python strings are modelled as `List Char` (`Str`).  Python `float` scores are
modelled as exact rationals `ℚ`; every arithmetic step of the source is a
rational operation here, so threshold and averaging structure is preserved
exactly.  Character-level helpers (`upper`, `lower`, `\w`, `\s`, `\d`) are
implemented over the character repertoire actually used by the repository
(ASCII plus the Turkish letters appearing in the source tables).
-/

namespace MDP

abbrev Str := List Char

/-- Convert a Lean string literal to the `List Char` model. -/
def strL (s : String) : Str := s.data

/-- Python `str.upper()` restricted to ASCII plus the Turkish letters used by
the source (`ı İ ğ Ğ ü Ü ş Ş ö Ö ç Ç`).  Note Python maps `'i'` to ASCII `'I'`
and `'ı'` to ASCII `'I'` as well. -/
def pyUpperC (c : Char) : Char :=
  if 'a' ≤ c ∧ c ≤ 'z' then Char.ofNat (c.toNat - 32)
  else if c = 'ı' then 'I'
  else if c = 'ğ' then 'Ğ'
  else if c = 'ü' then 'Ü'
  else if c = 'ş' then 'Ş'
  else if c = 'ö' then 'Ö'
  else if c = 'ç' then 'Ç'
  else c

/-- Python `str.lower()` on the same repertoire.  Python maps `'I'` to ASCII
`'i'` (not to `'ı'`); `'İ'` lowers to `'i'` followed by a combining dot in
CPython, modelled here as plain `'i'` (the combining mark never matters for
the comparisons performed by the source). -/
def pyLowerC (c : Char) : Char :=
  if 'A' ≤ c ∧ c ≤ 'Z' then Char.ofNat (c.toNat + 32)
  else if c = 'İ' then 'i'
  else if c = 'Ğ' then 'ğ'
  else if c = 'Ü' then 'ü'
  else if c = 'Ş' then 'ş'
  else if c = 'Ö' then 'ö'
  else if c = 'Ç' then 'ç'
  else c

def pyUpper (s : Str) : Str := s.map pyUpperC
def pyLower (s : Str) : Str := s.map pyLowerC

/-- Python `\s` (ASCII whitespace; the source data never carries Unicode
spaces). -/
def isPySpace (c : Char) : Bool :=
  c = ' ' ∨ c = '\t' ∨ c = '\n' ∨ c = '\r' ∨ c = '\x0b' ∨ c = '\x0c'

/-- Python `\d` (ASCII digits). -/
def isPyDigit (c : Char) : Bool := '0' ≤ c ∧ c ≤ '9'

/-- Letters of the modelled repertoire (ASCII letters plus Turkish letters). -/
def isPyAlpha (c : Char) : Bool :=
  ('a' ≤ c ∧ c ≤ 'z') ∨ ('A' ≤ c ∧ c ≤ 'Z') ∨
  c ∈ (['ı', 'İ', 'ğ', 'Ğ', 'ü', 'Ü', 'ş', 'Ş', 'ö', 'Ö', 'ç', 'Ç'] : List Char)

/-- Python regex `\w` on the modelled repertoire: letters, digits, underscore. -/
def isWordChar (c : Char) : Bool := isPyAlpha c ∨ isPyDigit c ∨ c = '_'

/-- `str.split()` (split on whitespace runs, dropping empty pieces).
`acc` is the word currently being read, in reverse. -/
def pyWordsAux : Str → Str → List Str
  | [], acc => if acc = [] then [] else [acc.reverse]
  | c :: t, acc =>
    if isPySpace c then
      if acc = [] then pyWordsAux t [] else acc.reverse :: pyWordsAux t []
    else pyWordsAux t (c :: acc)

def pyWords (s : Str) : List Str := pyWordsAux s []

/-- `' '.join(ws)`. -/
def joinSpace : List Str → Str
  | [] => []
  | [w] => w
  | w :: ws => w ++ ' ' :: joinSpace ws

/-- `sep.join(ws)` for an arbitrary separator. -/
def joinWith (sep : Str) : List Str → Str
  | [] => []
  | [w] => w
  | w :: ws => w ++ sep ++ joinWith sep ws

/-- `str.strip()` (strip ASCII whitespace on both ends). -/
def pyStrip (s : Str) : Str :=
  ((s.dropWhile isPySpace).reverse.dropWhile isPySpace).reverse

/-- `str.split(sep)` for a single-character separator (keeps empty pieces,
like Python `"a//b".split('/') = ['a','','b']`). -/
def splitOnC (sep : Char) : Str → List Str
  | [] => [[]]
  | c :: t =>
    let r := splitOnC sep t
    if c = sep then [] :: r
    else match r with
      | [] => [[c]]
      | w :: ws => (c :: w) :: ws

/-- Python `str.replace(pat, repl)`: leftmost, non-overlapping, scanning
resumes after the replaced segment.  For `pat = ""` Python interleaves the
replacement everywhere; the source only ever replaces non-empty literals, and
the model returns the string unchanged in that degenerate case.  Fueled by
`s.length + 1` so the definition is structurally recursive (and hence
kernel-reducible): every step either keeps one character or consumes at least
`pat.length ≥ 1` characters, so the fuel never runs out. -/
def pyReplaceGo (pat repl : Str) : Nat → Str → Str
  | 0, s => s
  | _ + 1, [] => []
  | fuel + 1, c :: rest =>
    if pat ≠ [] ∧ pat.isPrefixOf (c :: rest) then
      repl ++ pyReplaceGo pat repl fuel ((c :: rest).drop pat.length)
    else
      c :: pyReplaceGo pat repl fuel rest

def pyReplace (pat repl s : Str) : Str := pyReplaceGo pat repl (s.length + 1) s

/-- Python `str.title()` on the modelled repertoire: a letter directly after a
letter is lowered, any other letter is uppered. -/
def pyTitleAux : Bool → Str → Str
  | _, [] => []
  | prevAlpha, c :: t =>
    if isPyAlpha c then
      (if prevAlpha then pyLowerC c else pyUpperC c) :: pyTitleAux true t
    else c :: pyTitleAux false t

def pyTitle (s : Str) : Str := pyTitleAux false s

/-!
## A small regex engine

All regexes of `company_normalizer.py` have the shape
`\b <elements> \b` where each element is a literal character, an escaped dot,
an optional escaped dot (`\.?`), a character class (`[İI]`), an optional class
(`[İI]?`), `\s+` or `\s*`.  The engine below implements exactly this fragment
with Python semantics: leftmost match, greedy optionals with backtracking,
case-insensitive comparison (`re.IGNORECASE`).  `\s+`/`\s*` are matched by
maximal munch, which coincides with Python's greedy matching here because in
every source pattern the element following them cannot match whitespace.
-/

inductive RE where
  | ch (c : Char)            -- literal character
  | opt (c : Char)           -- optional literal (`\.?` and friends)
  | cls (cs : List Char)     -- character class
  | optCls (cs : List Char)  -- optional character class
  | ws1                      -- `\s+`
  | ws0                      -- `\s*`
deriving Repr, DecidableEq

/-- CPython's case folding for `re.IGNORECASE`: characters compare equal when
their simple lowercase mappings coincide, and `sre_compile` additionally
equates `i` (U+0069) with dotless `ı` (U+0131).  The simple lowercase mapping
of `İ` (U+0130) is plain `i`, so `İ`, `I`, `i` and `ı` all fold to `i`. -/
def reFoldC (c : Char) : Char :=
  if c = 'İ' ∨ c = 'ı' then 'i' else pyLowerC c

/-- Case-insensitive character comparison (re.IGNORECASE). -/
def ciEq (a b : Char) : Bool := reFoldC a = reFoldC b

/-- `\b`: between `prev` and `next`, exactly one side is a word character
(an absent side counts as non-word). -/
def wordB (prev next : Option Char) : Bool :=
  (prev.elim false isWordChar) != (next.elim false isWordChar)

/-- Match a list of elements at the start of `s` (after the pattern's leading
mandatory character has been consumed); `prev` is the previously consumed
character, used for the trailing `\b`.  Returns the last consumed character
and the rest of the string. -/
def matchRE : List RE → Option Char → Str → Option (Option Char × Str)
  | [], prev, s => if wordB prev s.head? then some (prev, s) else none
  | .ch c :: es, _, x :: rest => if ciEq x c then matchRE es (some x) rest else none
  | .ch _ :: _, _, [] => none
  | .cls cs :: es, _, x :: rest =>
    if cs.any (ciEq x ·) then matchRE es (some x) rest else none
  | .cls _ :: _, _, [] => none
  | .opt c :: es, prev, s =>
    (match s with
     | x :: rest => if ciEq x c then matchRE es (some x) rest else none
     | [] => none) <|> matchRE es prev s
  | .optCls cs :: es, prev, s =>
    (match s with
     | x :: rest => if cs.any (ciEq x ·) then matchRE es (some x) rest else none
     | [] => none) <|> matchRE es prev s
  | .ws1 :: es, _, s =>
    let sp := s.takeWhile isPySpace
    if sp = [] then none else matchRE es (some ' ') (s.dropWhile isPySpace)
  | .ws0 :: es, prev, s =>
    let sp := s.takeWhile isPySpace
    if sp = [] then matchRE es prev s else matchRE es (some ' ') (s.dropWhile isPySpace)

/-- A source pattern: implicit `\b`, a mandatory first literal, the remaining
elements, implicit `\b`. -/
structure Pat where
  first : Char
  rest : List RE
deriving Repr, DecidableEq

/-- Try to match `p` at the current position (start-of-string boundary is
checked by the caller via `wordB`). -/
def matchPat (p : Pat) : Str → Option (Option Char × Str)
  | [] => none
  | x :: t => if ciEq x p.first then matchRE p.rest (some x) t else none

/-- `re.search(p, s)` (existence of a match). -/
def reSearchFrom (p : Pat) : Option Char → Str → Bool
  | _, [] => false
  | prev, c :: t =>
    (wordB prev (some c) && (matchPat p (c :: t)).isSome) || reSearchFrom p (some c) t

def reSearch (p : Pat) (s : Str) : Bool := reSearchFrom p none s

/-- `re.sub(p, repl, s)`: replace every (leftmost, non-overlapping) match.
Fueled by `s.length + 1`: each step consumes at least one character (every
pattern starts with a mandatory literal), so the fuel never runs out. -/
def reSubGo (p : Pat) (repl : Str) : Nat → Option Char → Str → Str
  | 0, _, s => s
  | fuel + 1, prev, s =>
    if wordB prev s.head? then
      match matchPat p s with
      | some (last, rest) => repl ++ reSubGo p repl fuel last rest
      | none =>
        match s with
        | [] => []
        | c :: t => c :: reSubGo p repl fuel (some c) t
    else
      match s with
      | [] => []
      | c :: t => c :: reSubGo p repl fuel (some c) t

def reSub (p : Pat) (repl : Str) (s : Str) : Str :=
  reSubGo p repl (s.length + 1) none s

/-- Case-sensitive match of a plain literal at the current position (the
abbreviation `re.sub(r'\b' + abbr + r'\b', ...)` of `normalize_company_name`
is compiled **without** `re.IGNORECASE`, unlike the type patterns).  Returns
the last consumed character and the rest; the `[]` case checks the trailing
`\b`. -/
def matchLitCS : Str → Option Char → Str → Option (Option Char × Str)
  | [], prev, s => if wordB prev s.head? then some (prev, s) else none
  | c :: t, _, x :: rest => if x = c then matchLitCS t (some x) rest else none
  | _ :: _, _, [] => none

/-- `re.sub(\bLIT\b, repl, s)` without `re.IGNORECASE`, fueled like
`reSubGo` (every abbreviation literal is non-empty, so each step consumes at
least one character). -/
def reSubLitCSGo (lit repl : Str) : Nat → Option Char → Str → Str
  | 0, _, s => s
  | fuel + 1, prev, s =>
    if wordB prev s.head? then
      match matchLitCS lit prev s with
      | some (last, rest) => repl ++ reSubLitCSGo lit repl fuel last rest
      | none =>
        match s with
        | [] => []
        | c :: t => c :: reSubLitCSGo lit repl fuel (some c) t
    else
      match s with
      | [] => []
      | c :: t => c :: reSubLitCSGo lit repl fuel (some c) t

def reSubLitCS (lit repl s : Str) : Str :=
  reSubLitCSGo lit repl (s.length + 1) none s

/-!
## `src/models/schemas.py` — the data model

Fields never touched by the normalizer or the resolver (SEO signals, GDPR
flags, timestamps) are omitted; datetimes are outside the model.  Pydantic's
`Dict[str, Any]` for `google_places` is modelled as a string map, since the
resolver only ever copies it wholesale.
-/

inductive CompanyType where
  | ANONIM | LIMITED | SAHIS | KOLEKTIF | KOMANDIT
  | KOOPERATIF | DERNEK | VAKIF | OTHER
deriving Repr, DecidableEq

structure CompanyIdentity where
  legal_name : Str
  trade_name : Option Str
  company_type : Option CompanyType
  country : Str
  city : Option Str
  district : Option Str
deriving Repr, DecidableEq

structure WebPresence where
  website_url : Option Str
  social_links : List (Str × Option Str)
  google_places : Option (List (Str × Str))
deriving Repr, DecidableEq

structure ContactInfo where
  emails_public : List Str
  phones_public : List Str
  address_public : Option Str
deriving Repr, DecidableEq

structure BusinessMeta where
  industry_naics_guess : Option Str
  sic_guess : Option Str
  headcount_band_guess : Option Str
  founding_year_guess : Option Int
  keywords : List Str
deriving Repr, DecidableEq

structure DataProvenance where
  source_url : Str
  source_type : Str
  hash : Option Str
deriving Repr, DecidableEq

structure UnifiedCompany where
  id : Option Str
  identity : CompanyIdentity
  web_presence : Option WebPresence
  contacts : Option ContactInfo
  business_meta : Option BusinessMeta
  provenance : List DataProvenance
  confidence_score : ℚ
deriving Repr, DecidableEq

/-- Python truthiness of an `Optional[str]`: `None` and `""` are falsy. -/
def truthyOS : Option Str → Bool
  | none => false
  | some s => s ≠ []

/-!
## `src/normalizers/company_normalizer.py`
-/

/-- `self.company_type_patterns`, in dict order, each regex transcribed into
the engine's pattern type. -/
def company_type_patterns : List (CompanyType × List Pat) :=
  [ (.ANONIM,
     [ ⟨'A', [.ch '.', .ch 'Ş', .opt '.']⟩,                       -- \bA\.Ş\.?\b
       ⟨'A', [.ch 'N', .ch 'O', .ch 'N', .ch 'İ', .ch 'M', .ws1,
              .ch 'Ş', .ch 'İ', .ch 'R', .ch 'K', .ch 'E', .ch 'T',
              .optCls ['İ', 'I']]⟩,                               -- \bANONİM\s+ŞİRKET[İI]?\b
       ⟨'A', [.ch '.', .ch 'S', .opt '.']⟩ ]),                    -- \bA\.S\.?\b
    (.LIMITED,
     [ ⟨'L', [.ch 'T', .ch 'D', .opt '.', .ws0,
              .ch 'Ş', .ch 'T', .cls ['İ', 'I'], .opt '.']⟩,      -- \bLTD\.?\s*ŞT[İI]\.?\b
       ⟨'L', [.cls ['İ', 'I'], .ch 'M', .cls ['İ', 'I'], .ch 'T', .ch 'E', .ch 'D',
              .ws1, .ch 'Ş', .ch 'İ', .ch 'R', .ch 'K', .ch 'E', .ch 'T',
              .optCls ['İ', 'I']]⟩,                               -- \bL[İI]M[İI]TED\s+ŞİRKET[İI]?\b
       ⟨'L', [.ch 'T', .ch 'D', .opt '.']⟩ ]),                    -- \bLTD\.?\b
    (.SAHIS,
     [ ⟨'Ş', [.ch 'A', .ch 'H', .ch 'I', .ch 'S', .ws1,
              .ch 'Ş', .ch 'İ', .ch 'R', .ch 'K', .ch 'E', .ch 'T',
              .optCls ['İ', 'I']]⟩,                               -- \bŞAHIS\s+ŞİRKET[İI]?\b
       ⟨'Ş', [.ch 'A', .ch 'H', .ch 'I', .ch 'S']⟩ ]),            -- \bŞAHIS\b
    (.KOLEKTIF,
     [ ⟨'K', [.ch 'O', .ch 'L', .ch 'E', .ch 'K', .ch 'T', .cls ['İ', 'I'], .ch 'F',
              .ws1, .ch 'Ş', .ch 'İ', .ch 'R', .ch 'K', .ch 'E', .ch 'T',
              .optCls ['İ', 'I']]⟩,                               -- \bKOLEKT[İI]F\s+ŞİRKET[İI]?\b
       ⟨'K', [.ch 'O', .ch 'L', .opt '.', .ws0,
              .ch 'Ş', .ch 'T', .cls ['İ', 'I'], .opt '.']⟩ ]),   -- \bKOL\.?\s*ŞT[İI]\.?\b
    (.KOMANDIT,
     [ ⟨'K', [.ch 'O', .ch 'M', .ch 'A', .ch 'N', .ch 'D', .cls ['İ', 'I'], .ch 'T',
              .ws1, .ch 'Ş', .ch 'İ', .ch 'R', .ch 'K', .ch 'E', .ch 'T',
              .optCls ['İ', 'I']]⟩,                               -- \bKOMAND[İI]T\s+ŞİRKET[İI]?\b
       ⟨'K', [.ch 'O', .ch 'M', .opt '.', .ws0,
              .ch 'Ş', .ch 'T', .cls ['İ', 'I'], .opt '.']⟩ ]) ]  -- \bKOM\.?\s*ŞT[İI]\.?\b

/-- All type patterns flattened in dict order, as iterated by
`normalize_company_name`. -/
def allTypePatterns : List Pat := (company_type_patterns.map Prod.snd).flatten

/-- `self.abbreviations` (dict order). -/
def abbreviations : List (Str × Str) :=
  [ (strL "TIC", strL "TİCARET"), (strL "SAN", strL "SANAYİ"),
    (strL "PAZ", strL "PAZARLAMA"), (strL "MÜH", strL "MÜHENDİSLİK"),
    (strL "İNŞ", strL "İNŞAAT"), (strL "BİLİŞ", strL "BİLİŞİM"),
    (strL "TEK", strL "TEKNOLOJİ"), (strL "TURZ", strL "TURİZM"),
    (strL "LOJ", strL "LOJİSTİK"), (strL "İTH", strL "İTHALAT"),
    (strL "İHR", strL "İHRACAT") ]

/-- `self.turkish_chars` with Python's `tr_char.upper()` already applied to
the keys, in dict order, as used by `normalize_for_matching`
(`name.replace(tr_char.upper(), ascii_char)`).  Note `'ı'.upper() = 'I'`, so
the first entry replaces ASCII `'I'` by lowercase `'i'`. -/
def turkishReplacements : List (Char × Char) :=
  [ ('I', 'i'), ('İ', 'I'), ('Ğ', 'g'), ('Ğ', 'G'), ('Ü', 'u'), ('Ü', 'U'),
    ('Ş', 's'), ('Ş', 'S'), ('Ö', 'o'), ('Ö', 'O'), ('Ç', 'c'), ('Ç', 'C') ]

/-- `CompanyNormalizer.normalize_company_name`. -/
def normalize_company_name (name : Str) : Str :=
  if name = [] then []
  else
    -- uppercase, collapse whitespace
    let n := joinSpace (pyWords (pyUpper name))
    -- expand abbreviations (whole-word, case-sensitive: this `re.sub` has no
    -- `re.IGNORECASE` flag)
    let n := abbreviations.foldl (fun n ab => reSubLitCS ab.1 ab.2 n) n
    -- strip company-type suffixes
    let n := allTypePatterns.foldl (fun n p => reSub p [] n) n
    -- punctuation (other than word chars, whitespace, & and -) becomes space
    let n := n.map fun c =>
      if ¬(isWordChar c ∨ isPySpace c ∨ c = '&' ∨ c = '-') then ' ' else c
    -- collapse whitespace again and strip
    pyStrip (joinSpace (pyWords n))

/-- `CompanyNormalizer.normalize_for_matching`. -/
def normalize_for_matching (name : Str) : Str :=
  let n := normalize_company_name name
  let n := turkishReplacements.foldl
    (fun n p => n.map fun c => if c = p.1 then p.2 else c) n
  n.filter fun c => ('A' ≤ c ∧ c ≤ 'Z') ∨ ('0' ≤ c ∧ c ≤ '9')

/-- `CompanyNormalizer.extract_company_type`. -/
def extract_company_type (name : Str) : Option CompanyType :=
  let u := pyUpper name
  company_type_patterns.findSome? fun tp =>
    if tp.2.any (fun p => reSearch p u) then some tp.1 else none

/-- `CompanyNormalizer.normalize_phone`. -/
def normalize_phone (phone : Str) : Str :=
  if phone = [] then []
  else
    let d := phone.filter isPyDigit
    if (strL "90").isPrefixOf d then '+' :: d
    else if (strL "0").isPrefixOf d then strL "+90" ++ d.tail
    else if d.length = 10 then strL "+90" ++ d
    else if ¬ (strL "+").isPrefixOf d then strL "+90" ++ d
    else d

/-- `CompanyNormalizer.normalize_email`. -/
def normalize_email (email : Str) : Str :=
  if email = [] then []
  else
    let e := pyStrip (pyLower email)
    let e := pyReplace (strL "mailto:") [] e
    if ¬ e.contains '@' ∨ ¬ ((splitOnC '@' e).getD 1 []).contains '.' then []
    else e

/-- `CompanyNormalizer.normalize_url`. -/
def normalize_url (url : Str) : Str :=
  if url = [] then []
  else
    let u := pyStrip (pyLower url)
    let u := if ¬ ((strL "http://").isPrefixOf u ∨ (strL "https://").isPrefixOf u)
             then strL "https://" ++ u else u
    let u := (u.reverse.dropWhile (· = '/')).reverse   -- rstrip('/')
    pyReplace (strL "://www.") (strL "://") u

/-- `city_mappings` of `normalize_city` (dict order). -/
def city_mappings : List (Str × Str) :=
  [ (strL "Istanbul", strL "İstanbul"), (strL "Ankara", strL "Ankara"),
    (strL "Izmir", strL "İzmir"), (strL "Bursa", strL "Bursa"),
    (strL "Antalya", strL "Antalya"), (strL "Adana", strL "Adana"),
    (strL "Konya", strL "Konya"), (strL "Gaziantep", strL "Gaziantep"),
    (strL "Kocaeli", strL "Kocaeli"), (strL "Kayseri", strL "Kayseri") ]

/-- `CompanyNormalizer.normalize_city`. -/
def normalize_city (city : Str) : Str :=
  if city = [] then []
  else
    let c := pyTitle (pyStrip city)
    match city_mappings.find? (fun m => pyUpper c = pyUpper m.1) with
    | some m => m.2
    | none => c

/-- `address_abbr` of `normalize_address` (dict order; the last three entries
replace a string by itself, exactly as in the source). -/
def address_abbr : List (Str × Str) :=
  [ (strL "Mah.", strL "Mahallesi"), (strL "Cad.", strL "Caddesi"),
    (strL "Sok.", strL "Sokak"), (strL "Apt.", strL "Apartmanı"),
    (strL "Blok", strL "Blok"), (strL "Kat", strL "Kat"),
    (strL "No:", strL "No:") ]

/-- `CompanyNormalizer.normalize_address`. -/
def normalize_address (address : Str) : Str :=
  if address = [] then []
  else
    let a := joinSpace (pyWords address)
    let a := address_abbr.foldl (fun a ab => pyReplace ab.1 ab.2 a) a
    pyStrip a

/-- The identity block of `CompanyNormalizer.normalize_company` (`identity`
is a required field, so the source's outer guard is always taken).  Note that
the company type is extracted from the *already normalized* legal name,
because the source reassigns `legal_name` first. -/
def normalizeIdentity (idt0 : CompanyIdentity) : CompanyIdentity :=
  let idt := { idt0 with legal_name := normalize_company_name idt0.legal_name }
  let idt := if truthyOS idt.trade_name
             then { idt with trade_name := some (normalize_company_name (idt.trade_name.getD [])) }
             else idt
  let idt := if truthyOS idt.city
             then { idt with city := some (normalize_city (idt.city.getD [])) }
             else idt
  if idt.company_type = none
  then { idt with company_type := extract_company_type idt.legal_name }
  else idt

/-- The web-presence block of `normalize_company`. -/
def normalizeWebPresence (w0 : WebPresence) : WebPresence :=
  let w := if truthyOS w0.website_url
           then { w0 with website_url := some (normalize_url (w0.website_url.getD [])) }
           else w0
  if w.social_links ≠ []
  then { w with social_links := w.social_links.map fun pl =>
           match pl.2 with
           | some l => if l ≠ [] then (pl.1, some (normalize_url l)) else pl
           | none => pl }
  else w

/-- The element mapper of the e-mail list comprehension
(`[ne(e) for e in emails if ne(e)]`). -/
def emailKeep (e : Str) : Option Str :=
  let x := normalize_email e
  if x ≠ [] then some x else none

/-- The element mapper of the phone list comprehension. -/
def phoneKeep (p : Str) : Option Str :=
  let x := normalize_phone p
  if x ≠ [] then some x else none

/-- The contacts block of `normalize_company`. -/
def normalizeContacts (k0 : ContactInfo) : ContactInfo :=
  let k := if k0.emails_public ≠ []
           then { k0 with emails_public := k0.emails_public.filterMap emailKeep }
           else k0
  let k := if k.phones_public ≠ []
           then { k with phones_public := k.phones_public.filterMap phoneKeep }
           else k
  if truthyOS k.address_public
  then { k with address_public := some (normalize_address (k.address_public.getD [])) }
  else k

/-- `CompanyNormalizer.normalize_company`.  The Python method mutates the
record in place and returns it; the model returns the updated record. -/
def normalize_company (c : UnifiedCompany) : UnifiedCompany :=
  { c with identity := normalizeIdentity c.identity,
           web_presence := c.web_presence.map normalizeWebPresence,
           contacts := c.contacts.map normalizeContacts }

/-!
## Fuzzy string similarity

`fuzzywuzzy` is an external dependency, not part of this repository.
Modelled from the spec: "method=fuzzy: character-level edit-distance-based
ratio, normalized to [0,1] (Levenshtein-ratio semantics:
`(len_a+len_b - 2*edit_distance) / (len_a+len_b)`)"; "method=token: tokenize
on whitespace, sort tokens, rejoin, then apply the same ratio".  The ratio is
returned on the library's 0–100 scale, which the source divides by 100.
-/

/-- Levenshtein edit distance, fueled by `a.length + b.length + 1` so the
definition is structurally recursive and kernel-reducible.  Each recursive
call decreases the combined length by at least one, so the fuel never runs
out and the `fuel = 0` fallback is never reached. -/
def levGo : Nat → Str → Str → Nat
  | 0, a, b => a.length + b.length
  | _ + 1, [], b => b.length
  | _ + 1, a, [] => a.length
  | fuel + 1, x :: xs, y :: ys =>
    if x = y then levGo fuel xs ys
    else 1 + min (levGo fuel xs ys) (min (levGo fuel (x :: xs) ys) (levGo fuel xs (y :: ys)))

def lev (a b : Str) : Nat := levGo (a.length + b.length + 1) a b

/-- Modelled from the spec: `fuzz.ratio` as the Levenshtein ratio on the
0–100 scale (`100` for two empty strings, as the ratio of two equal
strings). -/
def fuzzRatio (a b : Str) : ℚ :=
  if a.length + b.length = 0 then 100
  else 100 * ((a.length + b.length : ℤ) - 2 * lev a b) / (a.length + b.length)

/-- Lexicographic comparison of strings by code point (Python `sorted`). -/
def strLe : Str → Str → Bool
  | [], _ => true
  | _ :: _, [] => false
  | a :: as_, b :: bs => if a < b then true else if b < a then false else strLe as_ bs

/-- Insertion sort (stable, like Python `sorted`). -/
def insertStr (x : Str) : List Str → List Str
  | [] => [x]
  | y :: ys => if strLe x y then x :: y :: ys else y :: insertStr x ys

def sortStrs (ws : List Str) : List Str := ws.foldr insertStr []

/-- Modelled from the spec: `fuzz.token_sort_ratio` — tokenize on whitespace,
sort tokens, rejoin with single spaces, then take the same ratio. -/
def tokenSortRatio (a b : Str) : ℚ :=
  fuzzRatio (joinSpace (sortStrs (pyWords a))) (joinSpace (sortStrs (pyWords b)))

/-!
## `src/deduplication/entity_resolver.py`
-/

/-- The three constructor thresholds of `EntityResolver`. -/
structure Thresholds where
  exact : ℚ
  review : ℚ
  min : ℚ
deriving Repr, DecidableEq

/-- The default constructor arguments. -/
def defaultThresholds : Thresholds := ⟨95/100, 85/100, 70/100⟩

/-- `self.field_weights` (dict order). -/
def field_weights : List (Str × ℚ) :=
  [ (strL "domain", 35/100), (strL "legal_name", 25/100), (strL "phone", 15/100),
    (strL "email", 15/100), (strL "address", 10/100) ]

/-- `self.field_weights.get(field, 0.0)`. -/
def weightOf (f : Str) : ℚ := ((field_weights.find? (fun w => w.1 = f)).map Prod.snd).getD 0

/-- The `field_scores` dict always carries exactly these five keys, in this
insertion order. -/
structure FieldScores where
  domain : ℚ
  legal_name : ℚ
  phone : ℚ
  email : ℚ
  address : ℚ
deriving Repr, DecidableEq

/-- The `field_scores.items()` iteration of the weighted-average loop. -/
def fieldItems (fs : FieldScores) : List (Str × ℚ) :=
  [ (strL "domain", fs.domain), (strL "legal_name", fs.legal_name),
    (strL "phone", fs.phone), (strL "email", fs.email), (strL "address", fs.address) ]

/-- `EntityResolver.calculate_field_similarity`. -/
def calculate_field_similarity (value1 value2 : Str) (method : Str) : ℚ :=
  if value1 = [] ∨ value2 = [] then 0
  else if method = strL "exact" then (if pyLower value1 = pyLower value2 then 1 else 0)
  else if method = strL "fuzzy" then fuzzRatio (pyLower value1) (pyLower value2) / 100
  else if method = strL "token" then tokenSortRatio (pyLower value1) (pyLower value2) / 100
  else 0

/-- `str(url).split('/')[2].replace('www.', '')` — the host part of a URL as
extracted by the resolver. -/
def urlDomain (u : Str) : Str := pyReplace (strL "www.") [] ((splitOnC '/' u).getD 2 [])

/-- The domain part of a normalized e-mail (`email.split('@')[1]`). -/
def emailDomain (e : Str) : Str := (splitOnC '@' e).getD 1 []

/-- Python `max(scores) if scores else 0.0`. -/
def pymax : List ℚ → ℚ
  | [] => 0
  | x :: xs => xs.foldl max x

/-- The `phone_scores` list of `calculate_company_similarity`: scores over the
cross product of the two phone lists, keeping pairs whose normalizations are
both truthy. -/
def phoneScores (c1 c2 : UnifiedCompany) : List ℚ :=
  match c1.contacts, c2.contacts with
  | some k1, some k2 =>
    k1.phones_public.flatMap fun p1 =>
      k2.phones_public.filterMap fun p2 =>
        let n1 := normalize_phone p1
        let n2 := normalize_phone p2
        if n1 ≠ [] ∧ n2 ≠ [] then
          some (calculate_field_similarity n1 n2 (strL "exact"))
        else none
  | _, _ => []

/-- The `email_scores` list: 1.0 iff the domain parts after `@` coincide. -/
def emailScores (c1 c2 : UnifiedCompany) : List ℚ :=
  match c1.contacts, c2.contacts with
  | some k1, some k2 =>
    k1.emails_public.flatMap fun e1 =>
      k2.emails_public.filterMap fun e2 =>
        let n1 := normalize_email e1
        let n2 := normalize_email e2
        if n1 ≠ [] ∧ n2 ≠ [] then
          some (if emailDomain n1 = emailDomain n2 then (1 : ℚ) else 0)
        else none
  | _, _ => []

/-- The domain score: exact comparison of the two hosts, 0.0 unless both
records have a website. -/
def domainScoreOf (c1 c2 : UnifiedCompany) : ℚ :=
  match c1.web_presence, c2.web_presence with
  | some w1, some w2 =>
    if truthyOS w1.website_url ∧ truthyOS w2.website_url then
      calculate_field_similarity (urlDomain (w1.website_url.getD []))
        (urlDomain (w2.website_url.getD [])) (strL "exact")
    else 0
  | _, _ => 0

/-- The legal-name score: token comparison of the normalized names.
(`identity` is a required pydantic field, so the source's
`if company1.identity and company2.identity` guard is always taken.) -/
def nameScoreOf (c1 c2 : UnifiedCompany) : ℚ :=
  calculate_field_similarity (normalize_company_name c1.identity.legal_name)
    (normalize_company_name c2.identity.legal_name) (strL "token")

/-- The address score: fuzzy comparison of the normalized addresses, 0.0
unless both records carry one. -/
def addressScoreOf (c1 c2 : UnifiedCompany) : ℚ :=
  match c1.contacts, c2.contacts with
  | some k1, some k2 =>
    if truthyOS k1.address_public ∧ truthyOS k2.address_public then
      calculate_field_similarity (normalize_address (k1.address_public.getD []))
        (normalize_address (k2.address_public.getD [])) (strL "fuzzy")
    else 0
  | _, _ => 0

/-- The `field_scores` dict built by `calculate_company_similarity`. -/
def companyFieldScores (c1 c2 : UnifiedCompany) : FieldScores :=
  { domain := domainScoreOf c1 c2, legal_name := nameScoreOf c1 c2,
    phone := pymax (phoneScores c1 c2), email := pymax (emailScores c1 c2),
    address := addressScoreOf c1 c2 }

/-- The weighted-average loop at the end of `calculate_company_similarity`. -/
def overallScore (fs : FieldScores) : ℚ :=
  let total_score := (fieldItems fs).foldl (fun acc it => acc + it.2 * weightOf it.1) 0
  let total_weight := (fieldItems fs).foldl (fun acc it => acc + weightOf it.1) 0
  if 0 < total_weight then total_score / total_weight else 0

/-- `EntityResolver.calculate_company_similarity`. -/
def calculate_company_similarity (c1 c2 : UnifiedCompany) : ℚ × FieldScores :=
  (overallScore (companyFieldScores c1 c2), companyFieldScores c1 c2)

/-- `EntityResolver.create_blocking_key`. -/
def create_blocking_key (c : UnifiedCompany) : Str :=
  let ks : List Str := []
  let ks := ks ++ (match c.web_presence with
    | some w =>
      if truthyOS w.website_url then [strL "domain:" ++ urlDomain (w.website_url.getD [])]
      else []
    | none => [])
  let ks := ks ++ (
    let nm := normalize_for_matching c.identity.legal_name
    if 3 ≤ nm.length then [strL "name:" ++ nm.take 3] else [])
  let ks := ks ++ (match c.contacts with
    | some k =>
      match k.phones_public.head? with   -- `phones_public[:1]`
      | some p =>
        let pn := normalize_phone p
        if 6 ≤ pn.length then [strL "phone:" ++ pn.take 6] else []
      | none => []
    | none => [])
  let ks := ks ++ (if truthyOS c.identity.city
                   then [strL "city:" ++ pyUpper (c.identity.city.getD [])] else [])
  if ks = [] then strL "unknown" else joinWith (strL "|") ks

/-- `CompanyMatch` (the fields produced by `find_duplicates`). -/
structure CompanyMatch where
  company_a_id : Str
  company_b_id : Str
  match_score : ℚ
  match_fields : FieldScores
  match_type : Str
  requires_review : Bool
deriving Repr, DecidableEq

/-- `company.id or str(idx)` — the surrogate id of a record. -/
def surrogateId (c : UnifiedCompany) (i : Nat) : Str :=
  match c.id with
  | some s => if s = [] then strL (toString i) else s
  | none => strL (toString i)

/-- Update-or-append on an association list (`d[k] = v`). -/
def assocSet {κ α : Type} [DecidableEq κ] : List (κ × α) → κ → α → List (κ × α)
  | [], k, v => [(k, v)]
  | e :: t, k, v => if e.1 = k then (k, v) :: t else e :: assocSet t k v

/-- The `blocking_index` dict: blocking key to the `(index, company)` pairs
carrying it, keys in first-appearance order. -/
def blockingIndex (cs : List UnifiedCompany) : List (Str × List (Nat × UnifiedCompany)) :=
  cs.enum.foldl (fun m ic =>
    let k := create_blocking_key ic.2
    match m.find? (fun e => e.1 = k) with
    | some e => assocSet m k (e.2 ++ [ic])
    | none => m ++ [(k, [ic])]) []

/-- All ordered pairs `(x, y)` with `x` before `y` in the list
(the `for i, ... / for ... in block[i+1:]` double loop). -/
def pairsOf {α : Type} : List α → List (α × α)
  | [] => []
  | x :: t => t.map (fun y => (x, y)) ++ pairsOf t

/-- The `processed_pairs` filter: keep a pair only the first time its sorted
index pair is seen. -/
def seenFilter : List ((Nat × UnifiedCompany) × (Nat × UnifiedCompany)) → List (Nat × Nat) →
    List ((Nat × UnifiedCompany) × (Nat × UnifiedCompany))
  | [], _ => []
  | p :: ps, seen =>
    let k := (Nat.min p.1.1 p.2.1, Nat.max p.1.1 p.2.1)
    if k ∈ seen then seenFilter ps seen else p :: seenFilter ps (k :: seen)

/-- The sequence of pairs actually compared by `find_duplicates`: within-block
ordered pairs, blocks in insertion order, deduplicated by the seen-pairs set. -/
def comparedPairs (cs : List UnifiedCompany) :
    List ((Nat × UnifiedCompany) × (Nat × UnifiedCompany)) :=
  seenFilter ((blockingIndex cs).flatMap (fun b => pairsOf b.2)) []

/-- The per-pair body of `find_duplicates`: score the pair, and emit a
`CompanyMatch` exactly when the score reaches `min_threshold`. -/
def candidateFor (T : Thresholds) (p : (Nat × UnifiedCompany) × (Nat × UnifiedCompany)) :
    Option CompanyMatch :=
  let sc := calculate_company_similarity p.1.2 p.2.2
  if T.min ≤ sc.1 then
    some { company_a_id := surrogateId p.1.2 p.1.1
           company_b_id := surrogateId p.2.2 p.2.1
           match_score := sc.1
           match_fields := sc.2
           match_type := if T.exact ≤ sc.1 then strL "exact" else strL "fuzzy"
           requires_review := T.review ≤ sc.1 ∧ sc.1 < T.exact }
  else none

/-- `EntityResolver.find_duplicates`. -/
def find_duplicates (T : Thresholds) (cs : List UnifiedCompany) : List CompanyMatch :=
  (comparedPairs cs).filterMap (candidateFor T)

/-- `list(set(a) ∪ set(b))`.  Python's set iteration order is unspecified;
the model fixes it to first occurrences of `a ++ b`.  No claim depends on
this order. -/
def setUnion (a b : List Str) : List Str := (a ++ b).dedup

/-- Python truthiness of `Optional[int]` (`None` and `0` are falsy). -/
def truthyOI : Option Int → Bool
  | none => false
  | some n => n ≠ 0

/-- `dict.update`: existing keys updated in place, new keys appended. -/
def assocUpdateAll (base upd : List (Str × Option Str)) : List (Str × Option Str) :=
  upd.foldl (fun m kv => assocSet m kv.1 kv.2) base

/-- `EntityResolver.merge_companies`.  The source deep-copies `company1` and
then mutates only that copy; the functional model applies the same field
policy. -/
def merge_companies (c1 c2 : UnifiedCompany) : UnifiedCompany :=
  -- identity (`company2.identity` is a required field, so the outer guard
  -- is always taken)
  let mi := c1.identity
  let mi := if ¬ truthyOS mi.trade_name ∧ truthyOS c2.identity.trade_name
            then { mi with trade_name := c2.identity.trade_name } else mi
  let mi := if mi.company_type = none ∧ c2.identity.company_type ≠ none
            then { mi with company_type := c2.identity.company_type } else mi
  let mi := if ¬ truthyOS mi.city ∧ truthyOS c2.identity.city
            then { mi with city := c2.identity.city } else mi
  let mi := if ¬ truthyOS mi.district ∧ truthyOS c2.identity.district
            then { mi with district := c2.identity.district } else mi
  -- web presence
  let wp := match c2.web_presence with
    | none => c1.web_presence
    | some w2 =>
      match c1.web_presence with
      | none => some w2
      | some w1 =>
        let w1 := if ¬ truthyOS w1.website_url ∧ truthyOS w2.website_url
                  then { w1 with website_url := w2.website_url } else w1
        let w1 := if w2.social_links ≠ []
                  then { w1 with social_links := assocUpdateAll w1.social_links w2.social_links }
                  else w1
        let w1 := if w2.google_places ≠ none ∧ w1.google_places = none
                  then { w1 with google_places := w2.google_places } else w1
        some w1
  -- contacts
  let ct := match c2.contacts with
    | none => c1.contacts
    | some k2 =>
      match c1.contacts with
      | none => some k2
      | some k1 =>
        let k1 := { k1 with emails_public := setUnion k1.emails_public k2.emails_public }
        let k1 := { k1 with phones_public := setUnion k1.phones_public k2.phones_public }
        let k1 := if truthyOS k2.address_public then
            (if ¬ truthyOS k1.address_public then { k1 with address_public := k2.address_public }
             else if (k1.address_public.getD []).length < (k2.address_public.getD []).length
             then { k1 with address_public := k2.address_public }
             else k1)
          else k1
        some k1
  -- business meta
  let bm := match c2.business_meta with
    | none => c1.business_meta
    | some b2 =>
      match c1.business_meta with
      | none => some b2
      | some b1 =>
        let b1 := { b1 with keywords := (setUnion b1.keywords b2.keywords).take 50 }
        let b1 := if ¬ truthyOS b1.industry_naics_guess ∧ truthyOS b2.industry_naics_guess
                  then { b1 with industry_naics_guess := b2.industry_naics_guess } else b1
        let b1 := if ¬ truthyOS b1.sic_guess ∧ truthyOS b2.sic_guess
                  then { b1 with sic_guess := b2.sic_guess } else b1
        let b1 := if ¬ truthyOS b1.headcount_band_guess ∧ truthyOS b2.headcount_band_guess
                  then { b1 with headcount_band_guess := b2.headcount_band_guess } else b1
        let b1 := if ¬ truthyOI b1.founding_year_guess ∧ truthyOI b2.founding_year_guess
                  then { b1 with founding_year_guess := b2.founding_year_guess } else b1
        some b1
  { c1 with
    identity := mi, web_presence := wp, contacts := ct, business_meta := bm,
    provenance := c1.provenance ++ c2.provenance,
    confidence_score := (c1.confidence_score + c2.confidence_score) / 2 }

/-- Association-list lookup (`merge_groups.get(id)`). -/
def lookupA (g : List (Str × Nat)) (k : Str) : Option Nat :=
  (g.find? (fun e => e.1 = k)).map Prod.snd

/-- `max(merge_groups.values(), default=-1) + 1`. -/
def freshGroup (g : List (Str × Nat)) : Nat :=
  match g.map Prod.snd with
  | [] => 0
  | v :: vs => vs.foldl max v + 1

/-- Python truthiness of the `Optional[int]` returned by
`merge_groups.get(id)`: `None` **and the group id `0`** are falsy.  Group ids
are handed out from `0` upward (`max(values(), default=-1) + 1`), so the very
first group created is falsy in the `if group_a and group_b / elif / elif /
else` chain below. -/
def truthyON : Option Nat → Bool
  | none => false
  | some n => n ≠ 0

/-- One iteration of the merge-group loop of `resolve_duplicates`: a match is
applied only when `match_score >= exact_threshold and not requires_review`.
The branch conditions test Python **truthiness** of the looked-up values
(`if group_a and group_b: ... elif group_a: ... elif group_b: ... else:`), so
an id already mapped to group `0` takes the same branches as an unmapped
one. -/
def processMatch (T : Thresholds) (g : List (Str × Nat)) (m : CompanyMatch) :
    List (Str × Nat) :=
  if T.exact ≤ m.match_score ∧ m.requires_review = false then
    let ga := lookupA g m.company_a_id
    let gb := lookupA g m.company_b_id
    if truthyON ga && truthyON gb then
      if ga ≠ gb then g.map (fun e => (e.1, if some e.2 = gb then ga.getD 0 else e.2)) else g
    else if truthyON ga then assocSet g m.company_b_id (ga.getD 0)
    else if truthyON gb then assocSet g m.company_a_id (gb.getD 0)
    else
      let n := freshGroup g
      assocSet (assocSet g m.company_a_id n) m.company_b_id n
  else g

/-- The whole `merge_groups` construction. -/
def buildGroups (T : Thresholds) (ms : List CompanyMatch) : List (Str × Nat) :=
  ms.foldl (processMatch T) []

/-- Stands in for the `KeyError` the source would raise if a group member id
were missing from `company_index`; this cannot happen because both come from
the same `company.id or str(i)` computation. -/
def defaultCompany : UnifiedCompany :=
  ⟨none, ⟨[], none, none, strL "TR", none, none⟩, none, none, none, [], 1⟩

/-- `company_index[id]`: the dict comprehension keeps the **last** record
with a given surrogate id. -/
def companyIndexLookup (cs : List UnifiedCompany) (k : Str) : Option UnifiedCompany :=
  (cs.enum.reverse.find? (fun ic => surrogateId ic.2 ic.1 = k)).map Prod.snd

/-- One step of the `merged_companies` loop: place the record of group member
`e` into its group's slot, merging when the group already has one. -/
def mergedStep (cs : List UnifiedCompany) (acc : List (Nat × UnifiedCompany))
    (e : Str × Nat) : List (Nat × UnifiedCompany) :=
  match acc.find? (fun me => me.1 = e.2) with
  | none => acc ++ [(e.2, (companyIndexLookup cs e.1).getD defaultCompany)]
  | some me => assocSet acc e.2
      (merge_companies me.2 ((companyIndexLookup cs e.1).getD defaultCompany))

/-- The `merged_companies` dict: fold the groups map in insertion order,
merging members of an already-seen group into its accumulated record. -/
def mergedFold (cs : List UnifiedCompany) (g : List (Str × Nat)) :
    List (Nat × UnifiedCompany) :=
  g.foldl (mergedStep cs) []

/-- Two ids sit in one merge group: `merge_groups` maps both to the same
group id. -/
def sameGroup (g : List (Str × Nat)) (x y : Str) : Prop :=
  ∃ n, lookupA g x = some n ∧ lookupA g y = some n

/-- The trailing loop of `resolve_duplicates`: companies whose surrogate id is
in no merge group pass through in input order. -/
def passthrough (cs : List UnifiedCompany) (g : List (Str × Nat)) : List UnifiedCompany :=
  (cs.enum.filter (fun ic => lookupA g (surrogateId ic.2 ic.1) = none)).map Prod.snd

/-- `EntityResolver.resolve_duplicates`. -/
def resolve_duplicates (T : Thresholds) (cs : List UnifiedCompany) (auto_merge : Bool) :
    List UnifiedCompany × List CompanyMatch :=
  let ms := find_duplicates T cs
  if ms = [] ∨ auto_merge = false then (cs, ms)
  else
    let g := buildGroups T ms
    ((mergedFold cs g).map Prod.snd ++ passthrough cs g, ms)

/-!
## Definitions following the specification's wording

These definitions transcribe sentences of the specification (not the source),
for comparison against the source-derived definitions above.
-/

/-- Spec wording of the phone rule (C5): "first strips all non-digit
characters and then applies the country-code rules in order: a leading `90`
gets `+` prefixed; a leading `0` is replaced by `+90`; a string of exactly 10
digits gets `+90` prefixed; otherwise `+90` is prefixed unless the string
already starts with `+`" — stated for *every* input string. -/
def claimPhoneRules (s : Str) : Str :=
  let d := s.filter isPyDigit
  if (strL "90").isPrefixOf d then '+' :: d
  else if (strL "0").isPrefixOf d then strL "+90" ++ d.tail
  else if d.length = 10 then strL "+90" ++ d
  else if ¬ (strL "+").isPrefixOf d then strL "+90" ++ d
  else d

/-- Data is present for the domain field iff both records have a website. -/
def domainPresent (c1 c2 : UnifiedCompany) : Bool :=
  match c1.web_presence, c2.web_presence with
  | some w1, some w2 => truthyOS w1.website_url && truthyOS w2.website_url
  | _, _ => false

/-- Data is present for the legal-name field iff both names are non-empty. -/
def namePresent (c1 c2 : UnifiedCompany) : Bool :=
  c1.identity.legal_name ≠ [] && c2.identity.legal_name ≠ []

/-- Data is present for the phone field iff some phone pair was comparable. -/
def phonePresent (c1 c2 : UnifiedCompany) : Bool := phoneScores c1 c2 ≠ []

/-- Data is present for the email field iff some email pair was comparable. -/
def emailPresent (c1 c2 : UnifiedCompany) : Bool := emailScores c1 c2 ≠ []

/-- Data is present for the address field iff both records carry an address. -/
def addressPresent (c1 c2 : UnifiedCompany) : Bool :=
  match c1.contacts, c2.contacts with
  | some k1, some k2 => truthyOS k1.address_public && truthyOS k2.address_public
  | _, _ => false

/-- Spec wording of the overall score (C1): the weighted mean of the *present*
field scores, absent fields excluded from both numerator and denominator, and
0 when all five fields are absent. -/
def claimOverall (c1 c2 : UnifiedCompany) : ℚ :=
  let fs := companyFieldScores c1 c2
  let entries : List (Bool × ℚ × ℚ) :=
    [ (domainPresent c1 c2, 35/100, fs.domain),
      (namePresent c1 c2, 25/100, fs.legal_name),
      (phonePresent c1 c2, 15/100, fs.phone),
      (emailPresent c1 c2, 15/100, fs.email),
      (addressPresent c1 c2, 10/100, fs.address) ]
  let num := entries.foldl (fun acc e => if e.1 then acc + e.2.1 * e.2.2 else acc) 0
  let den := entries.foldl (fun acc e => if e.1 then acc + e.2.1 else acc) 0
  if den = 0 then 0 else num / den

/-- Blocking-key component `domain:<host>` (present in code and claim alike). -/
def keyDomainComp (c : UnifiedCompany) : Option Str :=
  match c.web_presence with
  | some w =>
    if truthyOS w.website_url then some (strL "domain:" ++ urlDomain (w.website_url.getD []))
    else none
  | none => none

/-- Blocking-key component `name:<first 3 chars of matching-normalized name>`,
only when that normalized name has length at least 3. -/
def keyNameComp (c : UnifiedCompany) : Option Str :=
  let nm := normalize_for_matching c.identity.legal_name
  if 3 ≤ nm.length then some (strL "name:" ++ nm.take 3) else none

/-- C6's claimed phone component: the first 6 *digits* of the first
normalized phone, only when at least 6 digits are available. -/
def claimPhoneComp (c : UnifiedCompany) : Option Str :=
  match c.contacts with
  | some k =>
    match k.phones_public.head? with
    | some p =>
      let d := (normalize_phone p).filter isPyDigit
      if 6 ≤ d.length then some (strL "phone:" ++ d.take 6) else none
    | none => none
  | none => none

/-- The phone component the code actually builds: the first 6 *characters*
of the first normalized phone (these include the leading `+`), only when the
normalized phone has at least 6 characters. -/
def amendedPhoneComp (c : UnifiedCompany) : Option Str :=
  match c.contacts with
  | some k =>
    match k.phones_public.head? with
    | some p =>
      let pn := normalize_phone p
      if 6 ≤ pn.length then some (strL "phone:" ++ pn.take 6) else none
    | none => none
  | none => none

/-- Blocking-key component `city:<uppercased city>`. -/
def keyCityComp (c : UnifiedCompany) : Option Str :=
  if truthyOS c.identity.city then some (strL "city:" ++ pyUpper (c.identity.city.getD []))
  else none

/-- C6's claimed blocking key: the `|`-joined present components, with the
phone component made of digits. -/
def claimBlockingKey (c : UnifiedCompany) : Str :=
  let comps := [keyDomainComp c, keyNameComp c, claimPhoneComp c, keyCityComp c].filterMap id
  if comps = [] then strL "unknown" else joinWith (strL "|") comps

/-- The amended blocking key: as the claim, but the phone component is the
first 6 characters of the normalized phone (when it has at least 6). -/
def amendedBlockingKey (c : UnifiedCompany) : Str :=
  let comps := [keyDomainComp c, keyNameComp c, amendedPhoneComp c, keyCityComp c].filterMap id
  if comps = [] then strL "unknown" else joinWith (strL "|") comps

/-- The phone list of a record (empty when it has no contacts). -/
def phonesOf (c : UnifiedCompany) : List Str :=
  match c.contacts with
  | some k => k.phones_public
  | none => []

/-!
## Concrete records used by counterexamples and witnesses
-/

/-- A record with only a legal name. -/
def nameOnlyCompany (i : String) (nm : String) : UnifiedCompany :=
  { id := some (strL i),
    identity := { legal_name := strL nm, trade_name := none, company_type := none,
                  country := strL "TR", city := none, district := none },
    web_presence := none, contacts := none, business_meta := none,
    provenance := [], confidence_score := 1 }

/-- A record with a legal name, a website and nothing else. -/
def nameUrlCompany (i : String) (nm : String) (u : String) : UnifiedCompany :=
  { nameOnlyCompany i nm with
    web_presence := some { website_url := some (strL u), social_links := [],
                           google_places := none } }

/-- A record with a legal name, a city and nothing else. -/
def nameCityCompany (i : String) (nm : String) (city : String) : UnifiedCompany :=
  { nameOnlyCompany i nm with
    identity := { legal_name := strL nm, trade_name := none, company_type := none,
                  country := strL "TR", city := some (strL city), district := none } }

/-- A record with only a single phone (and a name too short for a name key):
the counterexample input of C6. -/
def phoneOnlyCompany : UnifiedCompany :=
  { nameOnlyCompany "p" "A" with
    contacts := some { emails_public := [], phones_public := [strL "2123456789"],
                       address_public := none } }

/-- Records sharing only a website (names empty): the counterexample input of
C1. -/
def urlOnlyA : UnifiedCompany := nameUrlCompany "a" "" "https://e.co"

def urlOnlyB : UnifiedCompany := nameUrlCompany "b" "" "https://e.co"

/-- Thresholds for the group-split scenario of C3: one shared phone or e-mail
(field weight `0.15 = 3/20`) reaches all three thresholds at once, and
`review = exact` makes `requires_review` unsatisfiable. -/
def splitThresholds : Thresholds := ⟨3/20, 3/20, 3/20⟩

/-- Group-split scenario, record A: phone `"1"` and an e-mail at host `a.co`.
The legal name `"."` normalizes to `""` and the normalized phone `"+901"` is
shorter than 6 characters, so the blocking key of all three records is
`city:X` and every pair is compared. -/
def splitA : UnifiedCompany :=
  { id := some (strL "A"),
    identity := { legal_name := strL ".", trade_name := none, company_type := none,
                  country := strL "TR", city := some (strL "X"), district := none },
    web_presence := none,
    contacts := some { emails_public := [strL "i@a.co"], phones_public := [strL "1"],
                       address_public := none },
    business_meta := none, provenance := [], confidence_score := 1 }

/-- Record B: shares its phone with A and its e-mail host with C. -/
def splitB : UnifiedCompany :=
  { splitA with
    id := some (strL "B"),
    contacts := some { emails_public := [strL "i@b.co"], phones_public := [strL "1"],
                       address_public := none } }

/-- Record C: shares only the e-mail host with B (and no phone at all). -/
def splitC : UnifiedCompany :=
  { splitA with
    id := some (strL "C"),
    contacts := some { emails_public := [strL "i@b.co"], phones_public := [],
                       address_public := none } }

/-- The match `find_duplicates` emits for the pair (A, B): phone score `1`,
overall score `3/20`, exact and non-review at `splitThresholds`. -/
def matchAB : CompanyMatch :=
  { company_a_id := strL "A", company_b_id := strL "B", match_score := 3/20,
    match_fields := ⟨0, 0, 1, 0, 0⟩, match_type := strL "exact",
    requires_review := false }

/-- The match emitted for the pair (B, C): e-mail score `1`, overall `3/20`,
exact and non-review. -/
def matchBC : CompanyMatch :=
  { company_a_id := strL "B", company_b_id := strL "C", match_score := 3/20,
    match_fields := ⟨0, 0, 0, 1, 0⟩, match_type := strL "exact",
    requires_review := false }

/-!
## A heap model for `merge_companies` (C10)

The frame claim — merging never mutates its inputs — is about Python object
identity, so it needs an explicit store.  The mutable sub-objects of a record
(its pydantic `CompanyIdentity`, `WebPresence`, `ContactInfo`, `BusinessMeta`
instances) live in a heap; a record holds references into it.  Their nested
dicts and lists (`social_links`, `google_places`, the contact lists) are part
of the owning object's value, so an in-place `dict.update` is a
read-modify-write of that object.  `merge_companies` starts with
`company1.copy(deep=True)`, so every reference it ever writes through is a
freshly allocated copy; references taken from `company2` are only read, or
aliased into the result without a subsequent write.
-/

inductive HObj where
  | idv (v : CompanyIdentity)
  | wpv (v : WebPresence)
  | ctv (v : ContactInfo)
  | bmv (v : BusinessMeta)
deriving Repr, DecidableEq

abbrev Store := List HObj

def readH (σ : Store) (r : Nat) : Option HObj := σ[r]?

def writeH (σ : Store) (r : Nat) (o : HObj) : Store := σ.set r o

def allocH (σ : Store) (o : HObj) : Store × Nat := (σ ++ [o], σ.length)

/-- A company record with heap references to its mutable sub-objects
(`identity` is required; the other three are `Optional`). -/
structure HCompany where
  id : Option Str
  identityRef : Nat
  web_presenceRef : Option Nat
  contactsRef : Option Nat
  business_metaRef : Option Nat
  provenance : List DataProvenance
  confidence_score : ℚ
deriving Repr, DecidableEq

/-- Typed reads; a dangling or ill-typed reference yields a default value
(the source would raise instead, which cannot happen on well-formed input). -/
def readId (σ : Store) (r : Nat) : CompanyIdentity :=
  match readH σ r with
  | some (.idv v) => v
  | _ => ⟨[], none, none, strL "TR", none, none⟩

def readWp (σ : Store) (r : Nat) : WebPresence :=
  match readH σ r with
  | some (.wpv v) => v
  | _ => ⟨none, [], none⟩

def readCt (σ : Store) (r : Nat) : ContactInfo :=
  match readH σ r with
  | some (.ctv v) => v
  | _ => ⟨[], [], none⟩

def readBm (σ : Store) (r : Nat) : BusinessMeta :=
  match readH σ r with
  | some (.bmv v) => v
  | _ => ⟨none, none, none, none, []⟩

/-- Copy an optional sub-object into a fresh cell. -/
def allocOpt (σ : Store) (o : Option HObj) : Store × Option Nat :=
  match o with
  | none => (σ, none)
  | some v => ((allocH σ v).1, some (allocH σ v).2)

/-- `company1.copy(deep=True)`: every referenced sub-object is copied into a
fresh cell. -/
def deepCopyH (σ : Store) (c : HCompany) : Store × HCompany :=
  let s1 := allocH σ (.idv (readId σ c.identityRef))
  let s2 := allocOpt s1.1 (c.web_presenceRef.map fun r => .wpv (readWp σ r))
  let s3 := allocOpt s2.1 (c.contactsRef.map fun r => .ctv (readCt σ r))
  let s4 := allocOpt s3.1 (c.business_metaRef.map fun r => .bmv (readBm σ r))
  (s4.1, { c with identityRef := s1.2, web_presenceRef := s2.2,
                  contactsRef := s3.2, business_metaRef := s4.2 })

/-- The identity block of `merge_companies`: conditional in-place updates of
the merged record's (freshly copied) identity object.  The four Python
attribute assignments target one object that no read in between aliases, so
they are combined into a single read-modify-write. -/
def mergeIdStepH (c2 : HCompany) (s : Store × HCompany) : Store × HCompany :=
  let i2 := readId s.1 c2.identityRef
  let mi := readId s.1 s.2.identityRef
  let mi := if ¬ truthyOS mi.trade_name ∧ truthyOS i2.trade_name
            then { mi with trade_name := i2.trade_name } else mi
  let mi := if mi.company_type = none ∧ i2.company_type ≠ none
            then { mi with company_type := i2.company_type } else mi
  let mi := if ¬ truthyOS mi.city ∧ truthyOS i2.city
            then { mi with city := i2.city } else mi
  let mi := if ¬ truthyOS mi.district ∧ truthyOS i2.district
            then { mi with district := i2.district } else mi
  (writeH s.1 s.2.identityRef (.idv mi), s.2)

/-- The web-presence block: either alias `company2`'s object wholesale (no
write), or update the merged record's own copy in place. -/
def mergeWpStepH (c2 : HCompany) (s : Store × HCompany) : Store × HCompany :=
  match c2.web_presenceRef with
  | none => s
  | some r2 =>
    match s.2.web_presenceRef with
    | none => (s.1, { s.2 with web_presenceRef := some r2 })
    | some rm =>
      let w2 := readWp s.1 r2
      let w1 := readWp s.1 rm
      let w1 := if ¬ truthyOS w1.website_url ∧ truthyOS w2.website_url
                then { w1 with website_url := w2.website_url } else w1
      let w1 := if w2.social_links ≠ []
                then { w1 with social_links := assocUpdateAll w1.social_links w2.social_links }
                else w1
      let w1 := if w2.google_places ≠ none ∧ w1.google_places = none
                then { w1 with google_places := w2.google_places } else w1
      (writeH s.1 rm (.wpv w1), s.2)

/-- The contacts block. -/
def mergeCtStepH (c2 : HCompany) (s : Store × HCompany) : Store × HCompany :=
  match c2.contactsRef with
  | none => s
  | some r2 =>
    match s.2.contactsRef with
    | none => (s.1, { s.2 with contactsRef := some r2 })
    | some rm =>
      let k2 := readCt s.1 r2
      let k1 := readCt s.1 rm
      let k1 := { k1 with emails_public := setUnion k1.emails_public k2.emails_public }
      let k1 := { k1 with phones_public := setUnion k1.phones_public k2.phones_public }
      let k1 := if truthyOS k2.address_public then
          (if ¬ truthyOS k1.address_public then { k1 with address_public := k2.address_public }
           else if (k1.address_public.getD []).length < (k2.address_public.getD []).length
           then { k1 with address_public := k2.address_public }
           else k1)
        else k1
      (writeH s.1 rm (.ctv k1), s.2)

/-- The business-metadata block. -/
def mergeBmStepH (c2 : HCompany) (s : Store × HCompany) : Store × HCompany :=
  match c2.business_metaRef with
  | none => s
  | some r2 =>
    match s.2.business_metaRef with
    | none => (s.1, { s.2 with business_metaRef := some r2 })
    | some rm =>
      let b2 := readBm s.1 r2
      let b1 := readBm s.1 rm
      let b1 := { b1 with keywords := (setUnion b1.keywords b2.keywords).take 50 }
      let b1 := if ¬ truthyOS b1.industry_naics_guess ∧ truthyOS b2.industry_naics_guess
                then { b1 with industry_naics_guess := b2.industry_naics_guess } else b1
      let b1 := if ¬ truthyOS b1.sic_guess ∧ truthyOS b2.sic_guess
                then { b1 with sic_guess := b2.sic_guess } else b1
      let b1 := if ¬ truthyOS b1.headcount_band_guess ∧ truthyOS b2.headcount_band_guess
                then { b1 with headcount_band_guess := b2.headcount_band_guess } else b1
      let b1 := if ¬ truthyOI b1.founding_year_guess ∧ truthyOI b2.founding_year_guess
                then { b1 with founding_year_guess := b2.founding_year_guess } else b1
      (writeH s.1 rm (.bmv b1), s.2)

/-- `EntityResolver.merge_companies` over the heap: deep-copy `company1`,
then run the four merge blocks, then extend provenance and average the
confidence on the copy. -/
def mergeCompaniesH (σ : Store) (c1 c2 : HCompany) : Store × HCompany :=
  let s := mergeBmStepH c2 (mergeCtStepH c2 (mergeWpStepH c2 (mergeIdStepH c2 (deepCopyH σ c1))))
  (s.1, { s.2 with provenance := s.2.provenance ++ c2.provenance,
                   confidence_score := (s.2.confidence_score + c2.confidence_score) / 2 })

/-!
# Theorems
-/

/-- `weightOf` on the five field names (plain unfoldings of the table). -/
theorem weightOf_domain : weightOf (strL "domain") = 35/100 := rfl

theorem weightOf_legal_name : weightOf (strL "legal_name") = 25/100 := rfl

theorem weightOf_phone : weightOf (strL "phone") = 15/100 := rfl

theorem weightOf_email : weightOf (strL "email") = 15/100 := rfl

theorem weightOf_address : weightOf (strL "address") = 10/100 := rfl

/-- The weighted-average loop in closed form: the five weights sum to 1, so
the score is the plain weighted sum of the five field scores. -/
theorem overallScore_weighted (fs : FieldScores) :
    overallScore fs =
      35/100 * fs.domain + 25/100 * fs.legal_name + 15/100 * fs.phone +
      15/100 * fs.email + 10/100 * fs.address := by
  unfold overallScore fieldItems
  simp only [List.foldl, weightOf_domain, weightOf_legal_name, weightOf_phone,
    weightOf_email, weightOf_address]
  rw [if_pos (by norm_num)]
  have hw : (0 : ℚ) + 35/100 + 25/100 + 15/100 + 15/100 + 10/100 = 1 := by norm_num
  rw [hw, div_one]
  ring

/-- The score/report pair returned by `calculate_company_similarity`. -/
theorem calc_sim_eq (c1 c2 : UnifiedCompany) :
    calculate_company_similarity c1 c2 =
      (overallScore (companyFieldScores c1 c2), companyFieldScores c1 c2) := rfl

/-- C5 (counterexample): on the empty input string `normalize_phone`
short-circuits to `""`, while the claimed rule chain (which has no
empty-input case) would produce `"+90"`. -/
theorem C5_counterexample :
    normalize_phone [] = [] ∧ claimPhoneRules [] = strL "+90" ∧
    normalize_phone [] ≠ claimPhoneRules [] := by
  refine ⟨rfl, rfl, ?_⟩
  decide

/-- C5 (amended): for every **non-empty** input string, `normalize_phone`
strips all non-digits and then applies the claimed country-code rules in
order; in particular `"0212 345 67 89"` normalizes to `"+902123456789"`.
(The empty string is returned unchanged instead.) -/
theorem C5_phone_rules :
    (∀ s : Str, s ≠ [] → normalize_phone s = claimPhoneRules s) ∧
    normalize_phone (strL "0212 345 67 89") = strL "+902123456789" := by
  constructor
  · intro s hs
    unfold normalize_phone claimPhoneRules
    rw [if_neg hs]
  · decide

/-- C5 (witness): the rule equivalence applied at the concrete input `"5"`. -/
theorem C5_phone_rules_witness :
    normalize_phone (strL "5") = claimPhoneRules (strL "5") :=
  C5_phone_rules.1 (strL "5") (by decide)

/-- C9: with `auto_merge = false`, `resolve_duplicates` returns the input
list unchanged together with the full match list of `find_duplicates`. -/
theorem C9_no_auto_merge (T : Thresholds) (cs : List UnifiedCompany) :
    resolve_duplicates T cs false = (cs, find_duplicates T cs) := by
  unfold resolve_duplicates
  rw [if_pos (Or.inr rfl)]

/-- C1 (counterexample): two records that share a website and carry no other
comparable data.  The code scores them `0.35/1 = 7/20` (all five weights stay
in the denominator), while the claimed present-fields-only weighted mean is
`0.35/0.35 = 1`. -/
theorem C1_counterexample :
    (calculate_company_similarity urlOnlyA urlOnlyB).1 = 7/20 ∧
    claimOverall urlOnlyA urlOnlyB = 1 ∧
    (calculate_company_similarity urlOnlyA urlOnlyB).1 ≠ claimOverall urlOnlyA urlOnlyB := by
  have hfs : companyFieldScores urlOnlyA urlOnlyB = ⟨1, 0, 0, 0, 0⟩ := by decide
  have h1 : (calculate_company_similarity urlOnlyA urlOnlyB).1 = 7/20 := by
    rw [calc_sim_eq, hfs, overallScore_weighted]
    norm_num
  have h2 : claimOverall urlOnlyA urlOnlyB = 1 := by
    unfold claimOverall
    rw [hfs,
      show domainPresent urlOnlyA urlOnlyB = true from by decide,
      show namePresent urlOnlyA urlOnlyB = false from by decide,
      show phonePresent urlOnlyA urlOnlyB = false from by decide,
      show emailPresent urlOnlyA urlOnlyB = false from by decide,
      show addressPresent urlOnlyA urlOnlyB = false from by decide]
    norm_num
  refine ⟨h1, h2, ?_⟩
  rw [h1, h2]
  norm_num

/-- C1 (amended): the overall score is the weighted **sum** of all five field
scores — every field's weight stays in the denominator (which totals 1), with
absent fields contributing score 0 — and the score is 0 when all five field
scores are 0. -/
theorem C1_weighted_sum (c1 c2 : UnifiedCompany) :
    (calculate_company_similarity c1 c2).1 =
      35/100 * (companyFieldScores c1 c2).domain +
      25/100 * (companyFieldScores c1 c2).legal_name +
      15/100 * (companyFieldScores c1 c2).phone +
      15/100 * (companyFieldScores c1 c2).email +
      10/100 * (companyFieldScores c1 c2).address ∧
    (companyFieldScores c1 c2 = ⟨0, 0, 0, 0, 0⟩ →
      (calculate_company_similarity c1 c2).1 = 0) := by
  constructor
  · rw [calc_sim_eq]
    exact overallScore_weighted _
  · intro h
    rw [calc_sim_eq, h, overallScore_weighted]
    norm_num

/-- C1 (witness): a record with no scoring data at all — all five field
scores are 0 and the overall score is 0. -/
theorem C1_weighted_sum_witness :
    (calculate_company_similarity (nameOnlyCompany "e" "") (nameOnlyCompany "e" "")).1 = 0 :=
  (C1_weighted_sum (nameOnlyCompany "e" "") (nameOnlyCompany "e" "")).2 (by decide)

/-- C4: the claim describes inferring the legal form from the **original**
name, but `normalize_company` first overwrites `legal_name` with the
suffix-stripped normalized name and only then calls `extract_company_type` on
it.  On `"ABC Teknoloji A.Ş."` (no pre-set type) the code therefore infers
**no** type, although the original name carries `A.Ş.` and the claimed
original-name test yields `ANONIM`. -/
theorem C4_type_from_normalized_name :
    (normalize_company (nameOnlyCompany "4" "ABC Teknoloji A.Ş.")).identity.legal_name
      = strL "ABC TEKNOLOJI" ∧
    (normalize_company (nameOnlyCompany "4" "ABC Teknoloji A.Ş.")).identity.company_type
      = none ∧
    extract_company_type (strL "ABC Teknoloji A.Ş.") = some CompanyType.ANONIM := by
  refine ⟨by decide, by decide, by decide⟩

/-- C6 (counterexample): for a record whose only signal is the phone
`"2123456789"`, the code builds `phone:+90212` — the first six *characters*
of the normalized phone, including the leading `+` — while the claimed first
six *digits* would give `phone:902123`. -/
theorem C6_counterexample :
    create_blocking_key phoneOnlyCompany = strL "phone:+90212" ∧
    claimBlockingKey phoneOnlyCompany = strL "phone:902123" ∧
    create_blocking_key phoneOnlyCompany ≠ claimBlockingKey phoneOnlyCompany := by
  refine ⟨by decide, by decide, by decide⟩

/-- C6 (amended): the blocking key is the `|`-joined concatenation, in the
fixed order domain, name, phone, city, of exactly the present components,
where the phone component is the first 6 **characters** of the first
normalized phone (present only when that normalized phone has at least 6
characters, i.e. at least 5 digits after the leading `+`); a record with no
components gets the literal key `unknown`. -/
theorem C6_blocking_key (c : UnifiedCompany) :
    create_blocking_key c = amendedBlockingKey c := by
  obtain ⟨cid, idt, wp, ct, bm, pr, cf⟩ := c
  unfold create_blocking_key amendedBlockingKey keyDomainComp keyNameComp
    amendedPhoneComp keyCityComp
  cases wp with
  | none =>
    cases ct with
    | none =>
      generalize normalize_for_matching idt.legal_name = nm
      rcases Classical.em (3 ≤ nm.length) with h3 | h3 <;>
        rcases Classical.em (truthyOS idt.city = true) with hc | hc <;>
        simp [h3, hc]
    | some k =>
      cases hph : k.phones_public with
      | nil =>
        simp only [hph, List.head?]
        generalize normalize_for_matching idt.legal_name = nm
        rcases Classical.em (3 ≤ nm.length) with h3 | h3 <;>
          rcases Classical.em (truthyOS idt.city = true) with hc | hc <;>
          simp [h3, hc]
      | cons p ps =>
        simp only [hph, List.head?]
        generalize normalize_for_matching idt.legal_name = nm
        generalize normalize_phone p = pn
        rcases Classical.em (3 ≤ nm.length) with h3 | h3 <;>
          rcases Classical.em (6 ≤ pn.length) with h6 | h6 <;>
          rcases Classical.em (truthyOS idt.city = true) with hc | hc <;>
          simp [h3, h6, hc]
  | some w =>
    cases ct with
    | none =>
      generalize normalize_for_matching idt.legal_name = nm
      generalize urlDomain (w.website_url.getD []) = du
      rcases Classical.em (truthyOS w.website_url = true) with hu | hu <;>
        rcases Classical.em (3 ≤ nm.length) with h3 | h3 <;>
        rcases Classical.em (truthyOS idt.city = true) with hc | hc <;>
        simp [hu, h3, hc]
    | some k =>
      cases hph : k.phones_public with
      | nil =>
        simp only [hph, List.head?]
        generalize normalize_for_matching idt.legal_name = nm
        generalize urlDomain (w.website_url.getD []) = du
        rcases Classical.em (truthyOS w.website_url = true) with hu | hu <;>
          rcases Classical.em (3 ≤ nm.length) with h3 | h3 <;>
          rcases Classical.em (truthyOS idt.city = true) with hc | hc <;>
          simp [hu, h3, hc]
      | cons p ps =>
        simp only [hph, List.head?]
        generalize normalize_for_matching idt.legal_name = nm
        generalize normalize_phone p = pn
        generalize urlDomain (w.website_url.getD []) = du
        rcases Classical.em (truthyOS w.website_url = true) with hu | hu <;>
          rcases Classical.em (3 ≤ nm.length) with h3 | h3 <;>
          rcases Classical.em (6 ≤ pn.length) with h6 | h6 <;>
          rcases Classical.em (truthyOS idt.city = true) with hc | hc <;>
          simp [hu, h3, h6, hc]

/-- C7 (counterexample): normalization is not idempotent on the name field.
In `"ANONİM.ŞİRKET"` the legal-form phrase is hidden by a dot, which the
punctuation pass turns into a space only **after** the suffix-stripping pass;
the second normalization then strips the whole name away. -/
theorem C7_counterexample :
    (normalize_company (nameOnlyCompany "7" "ANONİM.ŞİRKET")).identity.legal_name
      = strL "ANONİM ŞİRKET" ∧
    (normalize_company (normalize_company (nameOnlyCompany "7" "ANONİM.ŞİRKET"))).identity.legal_name
      = [] ∧
    (normalize_company (normalize_company (nameOnlyCompany "7" "ANONİM.ŞİRKET"))).identity.legal_name
      ≠ (normalize_company (nameOnlyCompany "7" "ANONİM.ŞİRKET")).identity.legal_name := by
  refine ⟨by decide, by decide, by decide⟩

/-- Every character of a digit-filtered string is a digit. -/
theorem filter_digits_all (s : Str) : ∀ x ∈ s.filter isPyDigit, isPyDigit x = true :=
  fun _ hx => (List.mem_filter.mp hx).2

/-- `normalize_phone` fixes any string of the form `+90<digits>`. -/
theorem np_of_plus90 (t : Str) (ht : ∀ x ∈ t, isPyDigit x = true) :
    normalize_phone ('+' :: '9' :: '0' :: t) = '+' :: '9' :: '0' :: t := by
  unfold normalize_phone
  rw [if_neg (by simp)]
  have hf : ('+' :: '9' :: '0' :: t).filter isPyDigit = '9' :: '0' :: t := by
    rw [List.filter_cons, List.filter_cons, List.filter_cons]
    simp [show isPyDigit '+' = false from rfl, show isPyDigit '9' = true from rfl,
      show isPyDigit '0' = true from rfl, List.filter_eq_self.mpr ht]
  rw [hf, if_pos]
  simp [strL, List.isPrefixOf]

/-- `normalize_phone` is idempotent. -/
theorem np_idem (s : Str) : normalize_phone (normalize_phone s) = normalize_phone s := by
  by_cases hs : s = []
  · subst hs; rfl
  have hall : ∀ x ∈ s.filter isPyDigit, isPyDigit x = true := filter_digits_all s
  by_cases h90 : (strL "90").isPrefixOf (s.filter isPyDigit)
  · obtain ⟨t, ht⟩ : ∃ t, s.filter isPyDigit = '9' :: '0' :: t := by
      obtain ⟨u, hu⟩ := List.isPrefixOf_iff_prefix.mp h90
      exact ⟨u, hu.symm⟩
    have hnp : normalize_phone s = '+' :: '9' :: '0' :: t := by
      unfold normalize_phone
      rw [if_neg hs, if_pos h90, ht]
    rw [hnp]
    exact np_of_plus90 t fun x hx => hall x (ht ▸ List.mem_cons_of_mem _ (List.mem_cons_of_mem _ hx))
  · by_cases h0 : (strL "0").isPrefixOf (s.filter isPyDigit)
    · have hnp : normalize_phone s = '+' :: '9' :: '0' :: (s.filter isPyDigit).tail := by
        unfold normalize_phone
        rw [if_neg hs, if_neg h90, if_pos h0]
        rfl
      rw [hnp]
      refine np_of_plus90 _ fun x hx => hall x ?_
      exact List.mem_of_mem_tail hx
    · by_cases h10 : (s.filter isPyDigit).length = 10
      · have hnp : normalize_phone s = '+' :: '9' :: '0' :: s.filter isPyDigit := by
          unfold normalize_phone
          rw [if_neg hs, if_neg h90, if_neg h0, if_pos h10]
          rfl
        rw [hnp]
        exact np_of_plus90 _ hall
      · have hplus : ¬ (strL "+").isPrefixOf (s.filter isPyDigit) := by
          intro hp
          cases hfd : s.filter isPyDigit with
          | nil => rw [hfd] at hp; simp [strL, List.isPrefixOf] at hp
          | cons x t =>
            rw [hfd] at hp
            have hx : x = '+' := by
              have := List.isPrefixOf_iff_prefix.mp hp
              obtain ⟨u, hu⟩ := this
              simpa [strL] using congrArg List.head? hu.symm
            have hdig : isPyDigit x = true := hall x (hfd ▸ List.mem_cons_self x t)
            rw [hx] at hdig
            simp [isPyDigit] at hdig
        have hnp : normalize_phone s = '+' :: '9' :: '0' :: s.filter isPyDigit := by
          unfold normalize_phone
          rw [if_neg hs, if_neg h90, if_neg h0, if_neg h10, if_pos hplus]
          rfl
        rw [hnp]
        exact np_of_plus90 _ hall

/-- `filterMap` by an idempotent keeper is a projection. -/
theorem filterMap_keep_fixed {α : Type} (f : α → Option α)
    (hf : ∀ p q, f q = some p → f p = some p) (L : List α) :
    (L.filterMap f).filterMap f = L.filterMap f := by
  induction L with
  | nil => rfl
  | cons a L ih =>
    cases hfa : f a with
    | none => simp [List.filterMap_cons, hfa, ih]
    | some b => simp [List.filterMap_cons, hfa, hf b a hfa, ih]

/-- `phoneKeep` keeps its own outputs (by idempotence of `normalize_phone`). -/
theorem phoneKeep_fixed (p q : Str) (h : phoneKeep q = some p) : phoneKeep p = some p := by
  unfold phoneKeep at *
  by_cases hq : normalize_phone q ≠ []
  · rw [if_pos hq] at h
    obtain rfl := (Option.some.injEq _ _).mp h
    rw [np_idem]
    rw [if_pos hq]
  · rw [if_neg hq] at h
    exact absurd h (by simp)

/-- The phone list produced by the contacts block. -/
theorem phones_normalizeContacts (k : ContactInfo) :
    (normalizeContacts k).phones_public =
      if k.phones_public = [] then k.phones_public
      else k.phones_public.filterMap phoneKeep := by
  unfold normalizeContacts
  split_ifs <;> simp_all [apply_ite ContactInfo.phones_public]

/-- C7 (amended): record normalization is **not** idempotent in general — a
second pass can rewrite the legal name (see the counterexample; nested
`mailto:` e-mails and nested `www.` URLs misbehave similarly) — but it is
idempotent on the phone field: `normalize_phone` is idempotent, and
re-normalizing a record leaves its normalized phone list unchanged. -/
theorem C7_phones_stable :
    (∀ s : Str, normalize_phone (normalize_phone s) = normalize_phone s) ∧
    (∀ c : UnifiedCompany,
      phonesOf (normalize_company (normalize_company c)) = phonesOf (normalize_company c)) := by
  refine ⟨np_idem, fun c => ?_⟩
  cases hct : c.contacts with
  | none => simp [normalize_company, phonesOf, hct]
  | some k =>
    have h1 : phonesOf (normalize_company c) = (normalizeContacts k).phones_public := by
      simp [normalize_company, phonesOf, hct]
    have h2 : phonesOf (normalize_company (normalize_company c)) =
        (normalizeContacts (normalizeContacts k)).phones_public := by
      simp [normalize_company, phonesOf, hct]
    rw [h1, h2, phones_normalizeContacts, phones_normalizeContacts]
    by_cases hph : k.phones_public = []
    · simp [hph]
    · rw [if_neg hph]
      split_ifs with hh
      · rfl
      · exact filterMap_keep_fixed phoneKeep phoneKeep_fixed _

/-- The fueled Levenshtein distance is symmetric (for any fuel). -/
theorem levGo_symm (fuel : Nat) : ∀ a b, levGo fuel a b = levGo fuel b a := by
  induction fuel with
  | zero => intro a b; simp [levGo, Nat.add_comm]
  | succ f ih =>
    intro a b
    cases a with
    | nil => cases b <;> simp [levGo]
    | cons x xs =>
      cases b with
      | nil => simp [levGo]
      | cons y ys =>
        simp only [levGo]
        by_cases hxy : x = y
        · subst hxy
          rw [if_pos rfl, if_pos rfl, ih]
        · rw [if_neg hxy, if_neg (Ne.symm hxy)]
          rw [ih xs ys, ih (x :: xs) ys, ih xs (y :: ys)]
          rw [Nat.min_comm (levGo f ys (x :: xs)) (levGo f (y :: ys) xs)]

/-- Levenshtein distance is symmetric. -/
theorem lev_symm (a b : Str) : lev a b = lev b a := by
  unfold lev
  rw [Nat.add_comm a.length b.length, levGo_symm]

/-- The modelled `fuzz.ratio` is symmetric. -/
theorem fuzzRatio_symm (a b : Str) : fuzzRatio a b = fuzzRatio b a := by
  unfold fuzzRatio
  rw [lev_symm a b]
  by_cases h : a.length + b.length = 0
  · rw [if_pos h, if_pos (by omega)]
  · rw [if_neg h, if_neg (by omega)]
    ring_nf

/-- The modelled `fuzz.token_sort_ratio` is symmetric. -/
theorem tokenSortRatio_symm (a b : Str) : tokenSortRatio a b = tokenSortRatio b a := by
  unfold tokenSortRatio
  exact fuzzRatio_symm _ _

/-- `calculate_field_similarity` is symmetric for every method. -/
theorem cfs_symm (m v1 v2 : Str) :
    calculate_field_similarity v1 v2 m = calculate_field_similarity v2 v1 m := by
  unfold calculate_field_similarity
  by_cases h1 : v1 = [] <;> by_cases h2 : v2 = [] <;> simp [h1, h2]
  split_ifs <;>
    simp_all [fuzzRatio_symm (pyLower v1) (pyLower v2),
      tokenSortRatio_symm (pyLower v1) (pyLower v2)]

/-- A left `max`-fold lands in the seed-plus-list. -/
theorem foldl_max_mem (x : ℚ) (xs : List ℚ) : xs.foldl max x ∈ x :: xs := by
  induction xs generalizing x with
  | nil => simp [List.foldl]
  | cons y ys ih =>
    simp only [List.foldl]
    rcases List.mem_cons.mp (ih (max x y)) with h | h
    · rcases max_choice x y with hm | hm <;> rw [hm] at h ⊢ <;> simp [h]
    · simp [List.mem_cons_of_mem, h]

/-- Every element of seed-plus-list is bounded by the `max`-fold. -/
theorem le_foldl_max (x : ℚ) (xs : List ℚ) : ∀ z ∈ x :: xs, z ≤ xs.foldl max x := by
  induction xs generalizing x with
  | nil => intro z hz; simp at hz; simp [hz, List.foldl]
  | cons y ys ih =>
    intro z hz
    simp only [List.foldl]
    rcases List.mem_cons.mp hz with rfl | hz2
    · exact le_trans (le_max_left z y) (ih (max z y) _ (List.mem_cons_self _ _))
    rcases List.mem_cons.mp hz2 with rfl | hz3
    · exact le_trans (le_max_right x z) (ih (max x z) _ (List.mem_cons_self _ _))
    · exact ih (max x y) z (List.mem_cons_of_mem _ hz3)

theorem pymax_mem (l : List ℚ) (h : l ≠ []) : pymax l ∈ l := by
  cases l with
  | nil => exact absurd rfl h
  | cons x xs => exact foldl_max_mem x xs

theorem le_pymax (l : List ℚ) (z : ℚ) (hz : z ∈ l) : z ≤ pymax l := by
  cases l with
  | nil => simp at hz
  | cons x xs => exact le_foldl_max x xs z hz

/-- Python's `max(l) if l else 0` depends only on the members of the list. -/
theorem pymax_congr_mem {l1 l2 : List ℚ} (h : ∀ x, x ∈ l1 ↔ x ∈ l2) :
    pymax l1 = pymax l2 := by
  cases hl1 : l1 with
  | nil =>
    cases hl2 : l2 with
    | nil => rfl
    | cons b bs =>
      have := (h b).mpr (by rw [hl2]; exact List.mem_cons_self _ _)
      rw [hl1] at this; simp at this
  | cons a as =>
    cases hl2 : l2 with
    | nil =>
      have := (h a).mp (by rw [hl1]; exact List.mem_cons_self _ _)
      rw [hl2] at this; simp at this
    | cons b bs =>
      subst hl1; subst hl2
      apply le_antisymm
      · exact le_pymax _ _ ((h _).mp (pymax_mem _ (by simp)))
      · exact le_pymax _ _ ((h _).mpr (pymax_mem _ (by simp)))

/-- Membership in `phone_scores` is invariant under swapping the records. -/
theorem phoneScores_mem_swap (c1 c2 : UnifiedCompany) (x : ℚ) :
    x ∈ phoneScores c1 c2 ↔ x ∈ phoneScores c2 c1 := by
  unfold phoneScores
  cases c1.contacts with
  | none => cases c2.contacts <;> simp
  | some k1 =>
    cases c2.contacts with
    | none => simp
    | some k2 =>
      simp only [List.mem_flatMap, List.mem_filterMap]
      constructor
      all_goals
        rintro ⟨a, ha, b, hb, hx⟩
        refine ⟨b, hb, a, ha, ?_⟩
        by_cases hg : normalize_phone a ≠ [] ∧ normalize_phone b ≠ []
        · rw [if_pos hg] at hx
          rw [if_pos (And.intro hg.2 hg.1), cfs_symm]
          exact hx
        · rw [if_neg hg] at hx
          exact absurd hx (by simp)

/-- Membership in `email_scores` is invariant under swapping the records. -/
theorem emailScores_mem_swap (c1 c2 : UnifiedCompany) (x : ℚ) :
    x ∈ emailScores c1 c2 ↔ x ∈ emailScores c2 c1 := by
  unfold emailScores
  cases c1.contacts with
  | none => cases c2.contacts <;> simp
  | some k1 =>
    cases c2.contacts with
    | none => simp
    | some k2 =>
      simp only [List.mem_flatMap, List.mem_filterMap]
      have hsc : ∀ u v : Str, (if emailDomain u = emailDomain v then (1 : ℚ) else 0)
          = (if emailDomain v = emailDomain u then (1 : ℚ) else 0) := by
        intro u v
        by_cases h : emailDomain u = emailDomain v
        · rw [if_pos h, if_pos h.symm]
        · rw [if_neg h, if_neg (fun hh => h hh.symm)]
      constructor
      all_goals
        rintro ⟨a, ha, b, hb, hx⟩
        refine ⟨b, hb, a, ha, ?_⟩
        by_cases hg : normalize_email a ≠ [] ∧ normalize_email b ≠ []
        · rw [if_pos hg] at hx
          rw [if_pos (And.intro hg.2 hg.1), hsc]
          exact hx
        · rw [if_neg hg] at hx
          exact absurd hx (by simp)

theorem domainScoreOf_symm (c1 c2 : UnifiedCompany) :
    domainScoreOf c1 c2 = domainScoreOf c2 c1 := by
  unfold domainScoreOf
  cases c1.web_presence with
  | none => cases c2.web_presence <;> simp
  | some w1 =>
    cases c2.web_presence with
    | none => simp
    | some w2 =>
      dsimp only
      rw [cfs_symm]
      exact if_congr and_comm rfl rfl

theorem nameScoreOf_symm (c1 c2 : UnifiedCompany) :
    nameScoreOf c1 c2 = nameScoreOf c2 c1 := by
  unfold nameScoreOf
  exact cfs_symm _ _ _

theorem addressScoreOf_symm (c1 c2 : UnifiedCompany) :
    addressScoreOf c1 c2 = addressScoreOf c2 c1 := by
  unfold addressScoreOf
  cases c1.contacts with
  | none => cases c2.contacts <;> simp
  | some k1 =>
    cases c2.contacts with
    | none => simp
    | some k2 =>
      dsimp only
      rw [cfs_symm]
      exact if_congr and_comm rfl rfl

/-- C8: company similarity is symmetric — swapping the two records changes
neither the overall score nor any entry of the per-field score report. -/
theorem C8_similarity_symmetric (c1 c2 : UnifiedCompany) :
    calculate_company_similarity c1 c2 = calculate_company_similarity c2 c1 := by
  have hfs : companyFieldScores c1 c2 = companyFieldScores c2 c1 := by
    unfold companyFieldScores
    rw [domainScoreOf_symm, nameScoreOf_symm, addressScoreOf_symm,
        pymax_congr_mem (phoneScores_mem_swap c1 c2),
        pymax_congr_mem (emailScores_mem_swap c1 c2)]
  rw [calc_sim_eq, calc_sim_eq, hfs]

/-- C2: for every pair compared by `find_duplicates` — which is exactly the
`filterMap` of the per-pair body over the compared-pairs sequence — a match is
emitted iff the overall score reaches `min_threshold`, and an emitted match is
classified `exact` iff the score reaches `exact_threshold`, `fuzzy` iff the
score is in `[min_threshold, exact_threshold)`, and flagged for review iff the
score is in `[review_threshold, exact_threshold)`. -/
theorem C2_classification (T : Thresholds) (cs : List UnifiedCompany)
    (p : (Nat × UnifiedCompany) × (Nat × UnifiedCompany))
    (_hp : p ∈ comparedPairs cs) :
    ((candidateFor T p).isSome = true ↔
      T.min ≤ (calculate_company_similarity p.1.2 p.2.2).1) ∧
    (∀ m, candidateFor T p = some m →
      ((m.match_type = strL "exact" ↔ T.exact ≤ m.match_score) ∧
       (m.match_type = strL "fuzzy" ↔ (T.min ≤ m.match_score ∧ m.match_score < T.exact)) ∧
       (m.requires_review = true ↔ (T.review ≤ m.match_score ∧ m.match_score < T.exact)))) ∧
    find_duplicates T cs = (comparedPairs cs).filterMap (candidateFor T) := by
  refine ⟨?_, ?_, rfl⟩
  · unfold candidateFor
    by_cases h : T.min ≤ (calculate_company_similarity p.1.2 p.2.2).1
    · rw [if_pos h]; simpa using h
    · rw [if_neg h]; simpa using h
  · intro m hm
    unfold candidateFor at hm
    by_cases h : T.min ≤ (calculate_company_similarity p.1.2 p.2.2).1
    · rw [if_pos h] at hm
      obtain rfl := (Option.some.injEq _ _).mp hm
      simp only []
      by_cases hex : T.exact ≤ (calculate_company_similarity p.1.2 p.2.2).1
      · rw [if_pos hex]
        refine ⟨by simpa using hex, ?_, ?_⟩
        · constructor
          · intro hty
            exact absurd hty (by decide)
          · rintro ⟨-, hlt⟩
            exact absurd hex (not_le.mpr hlt)
        · simp only [decide_eq_true_eq]
      · rw [if_neg hex]
        refine ⟨?_, ?_, ?_⟩
        · constructor
          · intro hty
            exact absurd hty (by decide)
          · intro hge
            exact absurd hge hex
        · simpa using And.intro h (not_le.mp hex)
        · simp only [decide_eq_true_eq]
    · rw [if_neg h] at hm
      exact absurd hm (by simp)

/-- C2 (witness): the emission criterion instantiated at two concrete records
sharing the blocking key `city:X`, with all-zero thresholds. -/
theorem C2_classification_witness :
    ((candidateFor ⟨0, 0, 0⟩
        ((0, nameCityCompany "1" "." "X"), (1, nameCityCompany "2" "." "X"))).isSome = true ↔
      (0 : ℚ) ≤ (calculate_company_similarity (nameCityCompany "1" "." "X")
        (nameCityCompany "2" "." "X")).1) :=
  (C2_classification ⟨0, 0, 0⟩ [nameCityCompany "1" "." "X", nameCityCompany "2" "." "X"]
    ((0, nameCityCompany "1" "." "X"), (1, nameCityCompany "2" "." "X")) (by decide)).1

/-- `d[k] = v` then lookup of `k` gives `v`. -/
theorem lookupA_assocSet_self (g : List (Str × Nat)) (k : Str) (v : Nat) :
    lookupA (assocSet g k v) k = some v := by
  induction g with
  | nil => simp [assocSet, lookupA]
  | cons e t ih =>
    unfold assocSet
    by_cases he : e.1 = k
    · rw [if_pos he]
      simp [lookupA]
    · rw [if_neg he]
      simpa [lookupA, List.find?, he] using ih

/-- `d[k] = v` leaves other keys' lookups unchanged. -/
theorem lookupA_assocSet_ne (g : List (Str × Nat)) (k : Str) (v : Nat) (x : Str)
    (h : x ≠ k) : lookupA (assocSet g k v) x = lookupA g x := by
  induction g with
  | nil =>
    have hkx : ¬ (k = x) := fun hh => h hh.symm
    simp [assocSet, lookupA, List.find?, hkx]
  | cons e t ih =>
    unfold assocSet
    by_cases he : e.1 = k
    · rw [if_pos he]
      have hex : ¬ (k = x) := fun hh => h hh.symm
      have hex2 : ¬ (e.1 = x) := he ▸ hex
      simp [lookupA, List.find?, hex, hex2]
    · rw [if_neg he]
      by_cases hx : e.1 = x
      · simp [lookupA, List.find?, hx]
      · simpa [lookupA, List.find?, hx] using ih

/-- Rewriting every group value commutes with lookup. -/
theorem lookupA_mapVals (g : List (Str × Nat)) (f : Nat → Nat) (x : Str) :
    lookupA (g.map fun e => (e.1, f e.2)) x = (lookupA g x).map f := by
  induction g with
  | nil => simp [lookupA]
  | cons e t ih =>
    by_cases hx : e.1 = x
    · simp [lookupA, List.find?, hx]
    · simpa [lookupA, List.find?, hx] using ih

/-- An emitted match carries the pair's similarity score as `match_score`,
and is classified `exact` precisely when that score reaches the exact
threshold. -/
theorem find_duplicates_exact_le (T : Thresholds) (cs : List UnifiedCompany)
    (m : CompanyMatch) (hm : m ∈ find_duplicates T cs)
    (ht : m.match_type = strL "exact") : T.exact ≤ m.match_score := by
  unfold find_duplicates at hm
  obtain ⟨p, _, hcf⟩ := List.mem_filterMap.mp hm
  unfold candidateFor at hcf
  dsimp only at hcf
  by_cases h : T.min ≤ (calculate_company_similarity p.1.2 p.2.2).1
  · rw [if_pos h] at hcf
    obtain rfl := (Option.some.injEq _ _).mp hcf
    by_cases hex : T.exact ≤ (calculate_company_similarity p.1.2 p.2.2).1
    · exact hex
    · dsimp only at ht
      rw [if_neg hex] at ht
      exact absurd ht (by decide)
  · rw [if_neg h] at hcf
    exact absurd hcf (by simp)

/-- The key list written by `d[k] = v`: unchanged when `k` is already a key,
extended by `k` otherwise. -/
theorem assocSet_keys {α : Type} (l : List (Nat × α)) (k : Nat) (v : α) :
    (assocSet l k v).map Prod.fst =
      if k ∈ l.map Prod.fst then l.map Prod.fst else l.map Prod.fst ++ [k] := by
  induction l with
  | nil => simp [assocSet]
  | cons e t ih =>
    unfold assocSet
    by_cases he : e.1 = k
    · rw [if_pos he]
      simp [he]
    · rw [if_neg he]
      simp only [List.map_cons, ih]
      by_cases hk : k ∈ t.map Prod.fst
      · rw [if_pos hk, if_pos (List.mem_cons_of_mem _ hk)]
      · have hne : ¬ k ∈ e.1 :: t.map Prod.fst := by
          simp only [List.mem_cons, hk, or_false]
          exact fun hh => he hh.symm
        rw [if_neg hk, if_neg hne]
        simp

/-- Group-id slots of the `merged_companies` fold: the keys are exactly the
distinct group ids seen so far, without duplicates. -/
theorem mergedFold_keys (cs : List UnifiedCompany) (entries : List (Str × Nat)) :
    ∀ acc : List (Nat × UnifiedCompany), (acc.map Prod.fst).Nodup →
      ((entries.foldl (mergedStep cs) acc).map Prod.fst).Nodup ∧
      (∀ n : Nat, n ∈ (entries.foldl (mergedStep cs) acc).map Prod.fst ↔
        (n ∈ acc.map Prod.fst ∨ n ∈ entries.map Prod.snd)) := by
  induction entries with
  | nil => intro acc h; exact ⟨h, by simp⟩
  | cons e es ih =>
    intro acc h
    simp only [List.foldl_cons]
    have hstep : ((mergedStep cs acc e).map Prod.fst).Nodup ∧
        (∀ n : Nat, n ∈ (mergedStep cs acc e).map Prod.fst ↔
          (n ∈ acc.map Prod.fst ∨ n = e.2)) := by
      unfold mergedStep
      cases hf : acc.find? (fun me => me.1 = e.2) with
      | none =>
        have hnotin : e.2 ∉ acc.map Prod.fst := by
          intro hmem
          obtain ⟨me, hme, hme2⟩ := List.mem_map.mp hmem
          have := List.find?_eq_none.mp hf me hme
          simp [hme2] at this
        constructor
        · rw [List.map_append]
          refine List.Nodup.append h (List.nodup_singleton _) ?_
          intro x hx hmem
          simp only [List.map_cons, List.map_nil, List.mem_singleton] at hmem
          subst hmem
          exact hnotin hx
        · intro n; simp
      | some me =>
        have hin : e.2 ∈ acc.map Prod.fst := by
          have hmem := List.mem_of_find?_eq_some hf
          have hkey := List.find?_some hf
          simp only [decide_eq_true_eq] at hkey
          exact hkey ▸ List.mem_map_of_mem Prod.fst hmem
        rw [assocSet_keys, if_pos hin]
        exact ⟨h, fun n => by
          constructor
          · exact Or.inl
          · rintro (hn | rfl)
            · exact hn
            · exact hin⟩
    obtain ⟨h1, h2⟩ := ih (mergedStep cs acc e) hstep.1
    refine ⟨h1, fun n => ?_⟩
    rw [h2 n]
    constructor
    · rintro (hn | hn)
      · rcases (hstep.2 n).mp hn with hn2 | rfl
        · exact Or.inl hn2
        · exact Or.inr (by simp)
      · exact Or.inr (by simp [hn])
    · rintro (hn | hn)
      · exact Or.inl ((hstep.2 n).mpr (Or.inl hn))
      · rw [List.map_cons] at hn
        rcases List.mem_cons.mp hn with rfl | hn2
        · exact Or.inl ((hstep.2 e.2).mpr (Or.inr rfl))
        · exact Or.inr hn2

/-- A defined group id is among the values of the groups map. -/
theorem lookupA_mem_vals (g : List (Str × Nat)) (x : Str) (n : Nat)
    (h : lookupA g x = some n) : n ∈ g.map Prod.snd := by
  unfold lookupA at h
  cases hf : g.find? (fun e => e.1 = x) with
  | none => rw [hf] at h; simp at h
  | some e =>
    rw [hf] at h
    have hmem := List.mem_of_find?_eq_some hf
    obtain rfl : e.2 = n := by simpa using h
    exact List.mem_map_of_mem Prod.snd hmem

/-- The weighted loop on an all-zero score report. -/
theorem overallScore_zeros : overallScore ⟨0, 0, 0, 0, 0⟩ = 0 := by
  rw [overallScore_weighted]
  norm_num

/-- `candidateFor` in terms of an already-computed similarity result. -/
theorem candidateFor_eval (T : Thresholds)
    (p : (Nat × UnifiedCompany) × (Nat × UnifiedCompany)) (q : ℚ) (fs : FieldScores)
    (h : calculate_company_similarity p.1.2 p.2.2 = (q, fs)) :
    candidateFor T p =
      if T.min ≤ q then
        some { company_a_id := surrogateId p.1.2 p.1.1
               company_b_id := surrogateId p.2.2 p.2.1
               match_score := q
               match_fields := fs
               match_type := if T.exact ≤ q then strL "exact" else strL "fuzzy"
               requires_review := T.review ≤ q ∧ q < T.exact }
      else none := by
  unfold candidateFor
  rw [h]

/-- C3 (code bug): the merge-group loop tests Python **truthiness** of
`merge_groups.get(...)`, and the very first group created gets id `0`, which
is falsy.  In this three-record scenario `find_duplicates` emits exactly the
two matches (A,B) and (B,C), both exact and non-review: processing (A,B)
creates group `0` for A and B; at (B,C) the lookup of B returns the falsy
`0`, so instead of joining C to B's group the loop opens the fresh group `1`
and reassigns B to it, leaving A alone in group `0`.  `resolve_duplicates`
with `auto_merge = true` therefore returns **two** canonical records — A
unchanged next to `merge(B, C)` — instead of the single record replacing all
three that the claim (and the spec's transitive-closure grouping) requires. -/
theorem C3_group_split :
    find_duplicates splitThresholds [splitA, splitB, splitC] = [matchAB, matchBC] ∧
    matchAB.company_a_id = strL "A" ∧ matchAB.company_b_id = strL "B" ∧
    matchBC.company_a_id = strL "B" ∧ matchBC.company_b_id = strL "C" ∧
    matchAB.match_type = strL "exact" ∧ matchAB.requires_review = false ∧
    matchBC.match_type = strL "exact" ∧ matchBC.requires_review = false ∧
    buildGroups splitThresholds [matchAB, matchBC] =
      [(strL "A", 0), (strL "B", 1), (strL "C", 1)] ∧
    (resolve_duplicates splitThresholds [splitA, splitB, splitC] true).1 =
      [splitA, merge_companies splitB splitC] := by
  have hsAB : calculate_company_similarity splitA splitB = ((3 : ℚ)/20, ⟨0, 0, 1, 0, 0⟩) := by
    rw [calc_sim_eq,
      show companyFieldScores splitA splitB = ⟨0, 0, 1, 0, 0⟩ from by decide,
      show overallScore ⟨0, 0, 1, 0, 0⟩ = 3/20 from by rw [overallScore_weighted]; norm_num]
  have hsAC : calculate_company_similarity splitA splitC = ((0 : ℚ), ⟨0, 0, 0, 0, 0⟩) := by
    rw [calc_sim_eq,
      show companyFieldScores splitA splitC = ⟨0, 0, 0, 0, 0⟩ from by decide,
      overallScore_zeros]
  have hsBC : calculate_company_similarity splitB splitC = ((3 : ℚ)/20, ⟨0, 0, 0, 1, 0⟩) := by
    rw [calc_sim_eq,
      show companyFieldScores splitB splitC = ⟨0, 0, 0, 1, 0⟩ from by decide,
      show overallScore ⟨0, 0, 0, 1, 0⟩ = 3/20 from by rw [overallScore_weighted]; norm_num]
  have hmin : splitThresholds.min ≤ (3 : ℚ)/20 := le_refl _
  have hty : (if splitThresholds.exact ≤ (3 : ℚ)/20 then strL "exact" else strL "fuzzy") =
      strL "exact" := if_pos (le_refl _)
  have hrr : (decide (splitThresholds.review ≤ (3 : ℚ)/20 ∧
      (3 : ℚ)/20 < splitThresholds.exact)) = false := by
    rw [decide_eq_false_iff_not]
    rintro ⟨-, h⟩
    exact absurd h (lt_irrefl _)
  have hAB : candidateFor splitThresholds ((0, splitA), (1, splitB)) = some matchAB := by
    have h := candidateFor_eval splitThresholds ((0, splitA), (1, splitB))
      ((3 : ℚ)/20) ⟨0, 0, 1, 0, 0⟩ hsAB
    rw [if_pos hmin, hty, hrr] at h
    exact h
  have hAC : candidateFor splitThresholds ((0, splitA), (2, splitC)) = none := by
    have h := candidateFor_eval splitThresholds ((0, splitA), (2, splitC))
      0 ⟨0, 0, 0, 0, 0⟩ hsAC
    rw [if_neg (show ¬(splitThresholds.min ≤ (0 : ℚ)) from by
      rw [show splitThresholds.min = (3 : ℚ)/20 from rfl]; norm_num)] at h
    exact h
  have hBC : candidateFor splitThresholds ((1, splitB), (2, splitC)) = some matchBC := by
    have h := candidateFor_eval splitThresholds ((1, splitB), (2, splitC))
      ((3 : ℚ)/20) ⟨0, 0, 0, 1, 0⟩ hsBC
    rw [if_pos hmin, hty, hrr] at h
    exact h
  have hcp : comparedPairs [splitA, splitB, splitC] =
      [((0, splitA), (1, splitB)), ((0, splitA), (2, splitC)),
       ((1, splitB), (2, splitC))] := by decide
  have hfd : find_duplicates splitThresholds [splitA, splitB, splitC] = [matchAB, matchBC] := by
    unfold find_duplicates
    rw [hcp]
    simp only [List.filterMap_cons, hAB, hAC, hBC, List.filterMap_nil]
  have hg1 : processMatch splitThresholds [] matchAB = [(strL "A", 0), (strL "B", 0)] := by
    unfold processMatch
    rw [if_pos ⟨le_refl _, rfl⟩]
    rfl
  have hg2 : processMatch splitThresholds [(strL "A", 0), (strL "B", 0)] matchBC =
      [(strL "A", 0), (strL "B", 1), (strL "C", 1)] := by
    unfold processMatch
    rw [if_pos ⟨le_refl _, rfl⟩]
    rfl
  have hbg : buildGroups splitThresholds [matchAB, matchBC] =
      [(strL "A", 0), (strL "B", 1), (strL "C", 1)] := by
    unfold buildGroups
    rw [List.foldl_cons, hg1, List.foldl_cons, hg2, List.foldl_nil]
  refine ⟨hfd, rfl, rfl, rfl, rfl, rfl, rfl, rfl, rfl, hbg, ?_⟩
  unfold resolve_duplicates
  rw [hfd, if_neg (by simp), hbg]
  rfl

/-- Reads below the old length see through an append. -/
theorem readH_append (σ : Store) (os : List HObj) (r : Nat) (hr : r < σ.length) :
    readH (σ ++ os) r = readH σ r := by
  unfold readH
  rw [List.getElem?_append, if_pos hr]

/-- Writing one cell leaves every other cell unchanged. -/
theorem readH_write_ne (σ : Store) (t : Nat) (o : HObj) (r : Nat) (h : r ≠ t) :
    readH (writeH σ t o) r = readH σ r := by
  unfold readH writeH
  exact List.getElem?_set_ne (fun hh => h hh.symm)

theorem writeH_length (σ : Store) (t : Nat) (o : HObj) :
    (writeH σ t o).length = σ.length := List.length_set σ t o

/-- What `copy(deep=True)` guarantees: the old store is untouched, and every
reference of the copy is fresh (at or beyond the old length). -/
theorem deepCopyH_spec (σ : Store) (c : HCompany) :
    σ.length ≤ (deepCopyH σ c).1.length ∧
    (∀ r, r < σ.length → readH (deepCopyH σ c).1 r = readH σ r) ∧
    σ.length ≤ (deepCopyH σ c).2.identityRef ∧
    (∀ r, (deepCopyH σ c).2.web_presenceRef = some r → σ.length ≤ r) ∧
    (∀ r, (deepCopyH σ c).2.contactsRef = some r → σ.length ≤ r) ∧
    (∀ r, (deepCopyH σ c).2.business_metaRef = some r → σ.length ≤ r) := by
  cases hw : c.web_presenceRef <;> cases hct : c.contactsRef <;> cases hb : c.business_metaRef <;>
    simp only [deepCopyH, allocOpt, allocH, hw, hct, hb, Option.map_none', Option.map_some'] <;>
    refine ⟨by simp, fun r hr => ?_, by simp, ?_, ?_, ?_⟩ <;>
    first
      | ((try simp only [List.append_assoc])
         exact readH_append _ _ _ hr)
      | (intro r h
         simp only [Option.some.injEq] at h
         simp [← h, List.length_append])
      | (intro r h
         exact absurd h (by simp))

/-- The identity block writes only the merged record's own identity cell. -/
theorem mergeIdStepH_frame (c2 : HCompany) (σ : Store) (m : HCompany) (n : Nat)
    (hid : n ≤ m.identityRef) :
    (∀ r, r < n → readH (mergeIdStepH c2 (σ, m)).1 r = readH σ r) ∧
    (mergeIdStepH c2 (σ, m)).1.length = σ.length ∧
    (mergeIdStepH c2 (σ, m)).2 = m := by
  refine ⟨fun r hr => ?_, writeH_length _ _ _, rfl⟩
  exact readH_write_ne _ _ _ _ (fun he => by dsimp only at he; omega)

/-- The web-presence block either aliases (no write) or writes only the
merged record's own copy; later-block references are untouched. -/
theorem mergeWpStepH_frame (c2 : HCompany) (σ : Store) (m : HCompany) (n : Nat)
    (hwp : ∀ r, m.web_presenceRef = some r → n ≤ r) :
    (∀ r, r < n → readH (mergeWpStepH c2 (σ, m)).1 r = readH σ r) ∧
    (mergeWpStepH c2 (σ, m)).1.length = σ.length ∧
    (mergeWpStepH c2 (σ, m)).2.contactsRef = m.contactsRef ∧
    (mergeWpStepH c2 (σ, m)).2.business_metaRef = m.business_metaRef := by
  unfold mergeWpStepH
  cases c2.web_presenceRef with
  | none => exact ⟨fun r hr => rfl, rfl, rfl, rfl⟩
  | some r2 =>
    cases hm : m.web_presenceRef with
    | none => exact ⟨fun r hr => rfl, rfl, rfl, rfl⟩
    | some rm =>
      have hrm := hwp rm hm
      exact ⟨fun r hr => readH_write_ne _ _ _ _ (fun he => absurd hrm (by omega)),
             writeH_length _ _ _, rfl, rfl⟩

/-- The contacts block, same shape. -/
theorem mergeCtStepH_frame (c2 : HCompany) (σ : Store) (m : HCompany) (n : Nat)
    (hct : ∀ r, m.contactsRef = some r → n ≤ r) :
    (∀ r, r < n → readH (mergeCtStepH c2 (σ, m)).1 r = readH σ r) ∧
    (mergeCtStepH c2 (σ, m)).1.length = σ.length ∧
    (mergeCtStepH c2 (σ, m)).2.business_metaRef = m.business_metaRef := by
  unfold mergeCtStepH
  cases c2.contactsRef with
  | none => exact ⟨fun r hr => rfl, rfl, rfl⟩
  | some r2 =>
    cases hm : m.contactsRef with
    | none => exact ⟨fun r hr => rfl, rfl, rfl⟩
    | some rm =>
      have hrm := hct rm hm
      exact ⟨fun r hr => readH_write_ne _ _ _ _ (fun he => absurd hrm (by omega)),
             writeH_length _ _ _, rfl⟩

/-- The business-metadata block, same shape. -/
theorem mergeBmStepH_frame (c2 : HCompany) (σ : Store) (m : HCompany) (n : Nat)
    (hbm : ∀ r, m.business_metaRef = some r → n ≤ r) :
    (∀ r, r < n → readH (mergeBmStepH c2 (σ, m)).1 r = readH σ r) ∧
    (mergeBmStepH c2 (σ, m)).1.length = σ.length := by
  unfold mergeBmStepH
  cases c2.business_metaRef with
  | none => exact ⟨fun r hr => rfl, rfl⟩
  | some r2 =>
    cases hm : m.business_metaRef with
    | none => exact ⟨fun r hr => rfl, rfl⟩
    | some rm =>
      have hrm := hbm rm hm
      exact ⟨fun r hr => readH_write_ne _ _ _ _ (fun he => absurd hrm (by omega)),
             writeH_length _ _ _⟩

/-- The heap frame of `merge_companies`: every cell of the incoming store is
unchanged, and the store only grows. -/
theorem mergeCompaniesH_frame (σ : Store) (c1 c2 : HCompany) :
    (∀ r, r < σ.length → readH (mergeCompaniesH σ c1 c2).1 r = readH σ r) ∧
    σ.length ≤ (mergeCompaniesH σ c1 c2).1.length := by
  obtain ⟨hlen0, hreads0, hid0, hwp0, hct0, hbm0⟩ := deepCopyH_spec σ c1
  obtain ⟨hreads1, hlen1, hm1⟩ :=
    mergeIdStepH_frame c2 (deepCopyH σ c1).1 (deepCopyH σ c1).2 σ.length hid0
  have hs1 : mergeIdStepH c2 (deepCopyH σ c1) =
      ((mergeIdStepH c2 (deepCopyH σ c1)).1, (deepCopyH σ c1).2) := by
    rw [← hm1]
  obtain ⟨hreads2, hlen2, hct2, hbm2⟩ :=
    mergeWpStepH_frame c2 (mergeIdStepH c2 (deepCopyH σ c1)).1 (deepCopyH σ c1).2 σ.length hwp0
  obtain ⟨hreads3, hlen3, hbm3⟩ :=
    mergeCtStepH_frame c2 (mergeWpStepH c2 ((mergeIdStepH c2 (deepCopyH σ c1)).1, (deepCopyH σ c1).2)).1
      (mergeWpStepH c2 ((mergeIdStepH c2 (deepCopyH σ c1)).1, (deepCopyH σ c1).2)).2 σ.length
      (fun r hr => hct0 r (hct2 ▸ hr))
  obtain ⟨hreads4, hlen4⟩ :=
    mergeBmStepH_frame c2
      (mergeCtStepH c2 ((mergeWpStepH c2 ((mergeIdStepH c2 (deepCopyH σ c1)).1, (deepCopyH σ c1).2)).1,
        (mergeWpStepH c2 ((mergeIdStepH c2 (deepCopyH σ c1)).1, (deepCopyH σ c1).2)).2)).1
      (mergeCtStepH c2 ((mergeWpStepH c2 ((mergeIdStepH c2 (deepCopyH σ c1)).1, (deepCopyH σ c1).2)).1,
        (mergeWpStepH c2 ((mergeIdStepH c2 (deepCopyH σ c1)).1, (deepCopyH σ c1).2)).2)).2 σ.length
      (fun r hr => hbm0 r (hbm2 ▸ (hbm3 ▸ hr)))
  constructor
  · intro r hr
    show readH (mergeBmStepH c2 (mergeCtStepH c2 (mergeWpStepH c2 (mergeIdStepH c2 (deepCopyH σ c1))))).1 r
      = readH σ r
    rw [hs1]
    calc readH (mergeBmStepH c2 (mergeCtStepH c2 (mergeWpStepH c2
          ((mergeIdStepH c2 (deepCopyH σ c1)).1, (deepCopyH σ c1).2)))).1 r
        = readH (mergeCtStepH c2 ((mergeWpStepH c2 ((mergeIdStepH c2 (deepCopyH σ c1)).1,
            (deepCopyH σ c1).2)).1, (mergeWpStepH c2 ((mergeIdStepH c2 (deepCopyH σ c1)).1,
            (deepCopyH σ c1).2)).2)).1 r := hreads4 r hr
      _ = readH (mergeWpStepH c2 ((mergeIdStepH c2 (deepCopyH σ c1)).1, (deepCopyH σ c1).2)).1 r :=
          hreads3 r hr
      _ = readH (mergeIdStepH c2 (deepCopyH σ c1)).1 r := hreads2 r hr
      _ = readH (deepCopyH σ c1).1 r := hreads1 r hr
      _ = readH σ r := hreads0 r hr
  · show σ.length ≤ (mergeBmStepH c2 (mergeCtStepH c2 (mergeWpStepH c2
        (mergeIdStepH c2 (deepCopyH σ c1))))).1.length
    rw [hs1]
    calc σ.length ≤ (deepCopyH σ c1).1.length := hlen0
      _ = (mergeIdStepH c2 (deepCopyH σ c1)).1.length := hlen1.symm
      _ = (mergeWpStepH c2 ((mergeIdStepH c2 (deepCopyH σ c1)).1, (deepCopyH σ c1).2)).1.length :=
          hlen2.symm
      _ = (mergeCtStepH c2 ((mergeWpStepH c2 ((mergeIdStepH c2 (deepCopyH σ c1)).1,
            (deepCopyH σ c1).2)).1, (mergeWpStepH c2 ((mergeIdStepH c2 (deepCopyH σ c1)).1,
            (deepCopyH σ c1).2)).2)).1.length := hlen3.symm
      _ = (mergeBmStepH c2 (mergeCtStepH c2 ((mergeWpStepH c2 ((mergeIdStepH c2 (deepCopyH σ c1)).1,
            (deepCopyH σ c1).2)).1, (mergeWpStepH c2 ((mergeIdStepH c2 (deepCopyH σ c1)).1,
            (deepCopyH σ c1).2)).2))).1.length := hlen4.symm

/-- C10: merging never mutates its inputs.  Every heap cell that existed
before the merge — in particular every sub-object of both input records —
holds the same value afterwards, and still does after any subsequent merge of
the output with a further record. -/
theorem C10_merge_no_mutation (σ : Store) (c1 c2 : HCompany) (r : Nat)
    (hr : r < σ.length) :
    readH (mergeCompaniesH σ c1 c2).1 r = readH σ r ∧
    (∀ c3 : HCompany,
      readH (mergeCompaniesH (mergeCompaniesH σ c1 c2).1
        (mergeCompaniesH σ c1 c2).2 c3).1 r = readH σ r) := by
  obtain ⟨hreads, hlen⟩ := mergeCompaniesH_frame σ c1 c2
  refine ⟨hreads r hr, fun c3 => ?_⟩
  obtain ⟨hreads2, -⟩ :=
    mergeCompaniesH_frame (mergeCompaniesH σ c1 c2).1 (mergeCompaniesH σ c1 c2).2 c3
  rw [hreads2 r (lt_of_lt_of_le hr hlen), hreads r hr]

/-- C10 (witness): a one-cell store holding a contacts object, merged as the
sub-object of two records. -/
theorem C10_merge_no_mutation_witness :
    readH (mergeCompaniesH [HObj.ctv ⟨[strL "a@b.c"], [], none⟩]
      { id := some (strL "1"), identityRef := 0, web_presenceRef := none,
        contactsRef := some 0, business_metaRef := none, provenance := [],
        confidence_score := 1 }
      { id := some (strL "2"), identityRef := 0, web_presenceRef := none,
        contactsRef := some 0, business_metaRef := none, provenance := [],
        confidence_score := 1 }).1 0 =
    readH [HObj.ctv ⟨[strL "a@b.c"], [], none⟩] 0 :=
  (C10_merge_no_mutation [HObj.ctv ⟨[strL "a@b.c"], [], none⟩]
    { id := some (strL "1"), identityRef := 0, web_presenceRef := none,
      contactsRef := some 0, business_metaRef := none, provenance := [],
      confidence_score := 1 }
    { id := some (strL "2"), identityRef := 0, web_presenceRef := none,
      contactsRef := some 0, business_metaRef := none, provenance := [],
      confidence_score := 1 } 0 (by decide)).1

end MDP
